import Mathlib

/-!
TicTacToe: the rules engine and the minimax search of `game.js`.

A shallow embedding of `generateBoard`, `getValidMoves`, `getWinner` and
`minimax` from `src/game.js`, followed by the properties proved about them.

JavaScript values are modelled as follows.

* A board cell is `null` or a player index: `Cell := Option Nat`, with `none`
  for `null`.
* A board is an array of rows: `Board := List (List Cell)`.
* Reading `board[i][j]` gives an `Option Cell`; the outer `none` is
  JavaScript's `undefined` (an index past the end of a row).
* `getWinner` returns a cell value or `-1`: an `Option Int`, where `none`
  stands for `null`/`undefined` (its callers only compare the result with
  numbers, so the two need not be told apart).
* `depth` and the values returned by `minimax` are JavaScript numbers holding
  integers: they are modelled as `Int`, and the three arithmetic expressions of
  `minimax` (`100 - depth`, `-100 + depth`, `depth + 1`) round their exact
  result to the nearest IEEE 754 double (`toDouble`), so that they are exact
  below `2 ^ 53` and lose low bits above.
* The recursion of `minimax` is driven by a fuel argument; `minimax` supplies
  one unit of fuel more than the board has empty cells.
-/

namespace TicTacToe

/-! ## The embedding of `game.js` -/

/-- The constant `boardSize` of `game.js`. -/
def boardSize : Nat := 3

/-- A cell: `none` is `null`, `some k` is the index of player `k`. -/
abbrev Cell := Option Nat

/-- A board: an array of rows of cells. -/
abbrev Board := List (List Cell)

/-- A coordinate object `{ x: column, y: row }`. -/
structure Move where
  x : Nat
  y : Nat
deriving DecidableEq, Repr

/-- The object `{ value, move }` returned by `minimax`; `none` is `null`. -/
structure Result where
  value : Option Int
  move : Option Move
deriving DecidableEq, Repr

/-- The row `board[i]`; a missing row reads as an empty one. -/
def row (board : Board) (i : Nat) : List Cell := board.getD i []

/-- The read `board[i][j]`; `none` is `undefined`, `some none` is `null`. -/
def cellAt (board : Board) (i j : Nat) : Option Cell := (row board i).get? j

/-- The write `board[y][x] = v` on a copy of the board. -/
def setCell (board : Board) (y x : Nat) (v : Cell) : Board :=
  board.set y ((row board y).set x v)

/-- Source function `generateBoard`: `boardSize` rows of `boardSize` nulls. -/
def generateBoard : Board :=
  (List.range boardSize).map fun _ => (List.range boardSize).map fun _ => none

/-- Source function `getValidMoves`: the two nested loops pushing `{ x: j, y: i }`
for every `board[i][j] === null`. -/
def getValidMoves (board : Board) : List Move :=
  (List.range boardSize).flatMap fun i =>
    (List.range boardSize).filterMap fun j =>
      if cellAt board i j = some none then some ⟨j, i⟩ else none

/-- The string an array element contributes to `Array.prototype.join('')`:
nothing for `null`, the decimal digits for a number. -/
def cellStr : Cell → List Char
  | none => []
  | some n => (Nat.repr n).toList

/-- The call `xs.join('')`, as a list of characters; `undefined` and `null`
elements contribute the empty string. -/
def join (xs : List (Option Cell)) : List Char :=
  xs.flatMap fun c =>
    match c with
    | none => []
    | some c => cellStr c

/-- Characters the regular expression atom `.` does not match. -/
def isLineTerminator (c : Char) : Bool :=
  c.toNat == 0x0A || c.toNat == 0x0D || c.toNat == 0x2028 || c.toNat == 0x2029

/-- The regular expression `^(.)\1{boardSize - 1}$`: one character other than
a line terminator, followed by exactly `boardSize - 1` copies of it. -/
def regexMatch : List Char → Bool
  | [] => false
  | c :: rest => !isLineTerminator c && rest == List.replicate (boardSize - 1) c

/-- A value read from the board, as returned by `getWinner`. -/
def toValue : Option Cell → Option Int
  | some (some n) => some (n : Int)
  | _ => none

/-- The array `column` built for column `i`: `board[j][i]` for each row `j`. -/
def column (board : Board) (i : Nat) : List (Option Cell) :=
  (List.range boardSize).map fun j => cellAt board j i

/-- The array `diagonal`: the cells with `i === j`. -/
def diagonal (board : Board) : List (Option Cell) :=
  (List.range boardSize).flatMap fun i =>
    (List.range boardSize).filterMap fun j =>
      if i = j then some (cellAt board i j) else none

/-- The array `antiDiagonal`: the cells with `i === boardSize - j - 1`. -/
def antiDiagonal (board : Board) : List (Option Cell) :=
  (List.range boardSize).flatMap fun i =>
    (List.range boardSize).filterMap fun j =>
      if i = boardSize - j - 1 then some (cellAt board i j) else none

/-- Source function `getWinner`: rows, then columns, then the diagonal, then the
anti-diagonal; the first line whose joined text matches the regular expression
gives its first cell, and `-1` is returned when none matches. -/
def getWinner (board : Board) : Option Int :=
  match (List.range boardSize).find? fun i =>
      regexMatch (join ((row board i).map some)) with
  | some i => toValue (cellAt board i 0)
  | none =>
    match (List.range boardSize).find? fun i => regexMatch (join (column board i)) with
    | some i => toValue ((column board i).head?.join)
    | none =>
      if regexMatch (join (diagonal board)) then toValue ((diagonal board).head?.join)
      else if regexMatch (join (antiDiagonal board)) then
        toValue ((antiDiagonal board).head?.join)
      else some (-1)

/-- The number of low bits of `n` a double cannot hold: the least `e` with
`n / 2 ^ e < 2 ^ 53` (a double has a 53-bit significand); the first argument
bounds the search. -/
def droppedBits : Nat → Nat → Nat
  | 0, _ => 0
  | fuel + 1, n => if n < 2 ^ 53 then 0 else droppedBits fuel (n / 2) + 1

/-- The double nearest to the natural number `n`, ties going to the even
significand: `n` itself below `2 ^ 53`, and otherwise the nearest multiple of
`2 ^ e` for the number `e` of bits that do not fit. -/
def roundNat (n : Nat) : Nat :=
  let e := droppedBits n n
  let q := n / 2 ^ e
  let r := n % 2 ^ e
  if 2 ^ e < 2 * r ∨ (2 * r = 2 ^ e ∧ q % 2 = 1) then (q + 1) * 2 ^ e else q * 2 ^ e

/-- The double nearest to the integer `x` (round to nearest, ties to even), the
result of an arithmetic operation whose exact result is `x`. The operands of
`minimax` are finite, so the exact results stay within 100 of a finite double and
never round to an infinity. -/
def toDouble (x : Int) : Int :=
  if x < 0 then -(roundNat x.natAbs : Int) else (roundNat x.natAbs : Int)

/-- The JavaScript expression `a + b` on numbers holding integers. -/
def jsAdd (a b : Int) : Int := toDouble (a + b)

/-- The JavaScript expression `a - b` on numbers holding integers. -/
def jsSub (a b : Int) : Int := toDouble (a - b)

/-- The integer `x` is the value of a finite double: it has at most 53
significant bits and its magnitude is below `2 ^ 1024`. -/
def IsDouble (x : Int) : Prop :=
  toDouble x = x ∧ x.natAbs < 2 ^ 256 * 2 ^ 256 * 2 ^ 256 * 2 ^ 256

instance (x : Int) : Decidable (IsDouble x) := by unfold IsDouble; infer_instance

/-- JavaScript's numeric coercion in `<` and `>`: `null` counts as `0`. -/
def toNumber : Option Int → Int
  | none => 0
  | some v => v

/-- The replacement test of the search loop:
`bestValue === null || (bestValue < value && maximizing) || (bestValue > value && !maximizing)`. -/
def improves (maximizing : Bool) (bestValue value : Option Int) : Bool :=
  bestValue == none
    || (decide (toNumber bestValue < toNumber value) && maximizing)
    || (decide (toNumber bestValue > toNumber value) && !maximizing)

/-- The expression `player === 0 ? 1 : 0`. -/
def nextPlayer (player : Nat) : Nat := if player = 0 then 1 else 0

/-- The `for` loop of `minimax` over the remaining moves: `child move` is the
result of the recursive call made for `move`, `best` carries `bestValue` and
`bestMove`. -/
def searchLoop (maximizing : Bool) (child : Move → Option Result) :
    List Move → Result → Option Result
  | [], best => some best
  | move :: rest, best =>
    match child move with
    | none => none
    | some r =>
      searchLoop maximizing child rest
        (if improves maximizing best.value r.value then ⟨r.value, some move⟩ else best)

/-- The arguments of one recursive call of `minimax`. -/
structure Call where
  board : Board
  player : Nat
  maximizing : Bool
  depth : Int
deriving DecidableEq, Repr

/-- The recursive call made in the loop body of `minimax` for `move`:
`childBoard` is a copy of `board` with `childBoard[move.y][move.x] = player`,
and the call is `minimax(childBoard, nextPlayer, !maximizing, depth + 1)`. -/
def childCall (board : Board) (player : Nat) (maximizing : Bool) (depth : Int)
    (move : Move) : Call :=
  ⟨setCell board move.y move.x (some player), nextPlayer player, !maximizing, jsAdd depth 1⟩

/-- Source function `minimax`, with a fuel argument bounding the recursion
depth; `none` means the fuel ran out. -/
def minimaxAux : Nat → Board → Nat → Bool → Int → Option Result
  | 0, _, _, _, _ => none
  | fuel + 1, board, player, maximizing, depth =>
    let winner := getWinner board
    let availableMoves := getValidMoves board
    if winner ≠ some (-1) then
      if (maximizing && winner == some (player : Int))
          || (!maximizing && winner != some (player : Int)) then
        some ⟨some (jsSub 100 depth), none⟩
      else
        some ⟨some (jsAdd (-100) depth), none⟩
    else if winner = some (-1) ∧ availableMoves.length = 0 then
      some ⟨some 0, none⟩
    else
      searchLoop maximizing
        (fun move =>
          minimaxAux fuel (childCall board player maximizing depth move).board
            (childCall board player maximizing depth move).player
            (childCall board player maximizing depth move).maximizing
            (childCall board player maximizing depth move).depth)
        availableMoves ⟨none, none⟩

/-- Source function `minimax`: the fuel is one more than the number of empty
cells of the board, which is enough for every board. The source's default
arguments are `maximizing = true` and `depth = 0`. -/
def minimax (board : Board) (player : Nat) (maximizing : Bool) (depth : Int) :
    Option Result :=
  minimaxAux ((getValidMoves board).length + 1) board player maximizing depth

/-- The player a call of `minimax` computes its value for: the side whose win
is scored `100 - depth`. It is `player` when `maximizing` is true and the other
player when it is false. -/
def perspective (player : Nat) (maximizing : Bool) : Nat :=
  if maximizing then player else nextPlayer player

/-- The calls of `minimax` made while `minimax(board, player, maximizing, depth)`
is evaluated, the outer call first: the control flow of `minimaxAux` with the
results left out (a terminal board makes no call, any other board makes the call
`childCall` for each valid move, in order). -/
def minimaxCalls : Nat → Board → Nat → Bool → Int → List Call
  | 0, _, _, _, _ => []
  | fuel + 1, board, player, maximizing, depth =>
    ⟨board, player, maximizing, depth⟩ ::
      (if getWinner board ≠ some (-1) then []
      else if getWinner board = some (-1) ∧ (getValidMoves board).length = 0 then []
      else
        (getValidMoves board).flatMap fun move =>
          minimaxCalls fuel (childCall board player maximizing depth move).board
            (childCall board player maximizing depth move).player
            (childCall board player maximizing depth move).maximizing
            (childCall board player maximizing depth move).depth)

/-! ## Definitions used in the statements and proofs -/

/-- The result with the opposite value and the same move. -/
def negate (r : Result) : Result := ⟨r.value.map fun v => -v, r.move⟩

/-- The nine coordinates of the board in row-major order. -/
def rowMajor : List Move :=
  [⟨0, 0⟩, ⟨1, 0⟩, ⟨2, 0⟩, ⟨0, 1⟩, ⟨1, 1⟩, ⟨2, 1⟩, ⟨0, 2⟩, ⟨1, 2⟩, ⟨2, 2⟩]

/-- The move `{ x: j, y: i }` when `board[i][j]` is `null`, and nothing otherwise. -/
def emptyAt (board : Board) (i j : Nat) : List Move :=
  if cellAt board i j = some none then [⟨j, i⟩] else []

/-- The number held in the `value` field of a result (`0` when there is none). -/
def valueOf (r : Option Result) : Int :=
  match r with
  | some ⟨some v, _⟩ => v
  | _ => 0

/-- Value `b` strictly improves on `a`: greater when maximizing, lesser otherwise. -/
def Better (maximizing : Bool) (a b : Int) : Prop :=
  if maximizing then a < b else b < a

/-- The result of the recursive call of `minimax` made for `move`. -/
def childResult (board : Board) (player : Nat) (maximizing : Bool) (depth : Int)
    (move : Move) : Option Result :=
  minimax (childCall board player maximizing depth move).board
    (childCall board player maximizing depth move).player
    (childCall board player maximizing depth move).maximizing
    (childCall board player maximizing depth move).depth

/-- A cell of a two-player game: empty, player `0` or player `1`. -/
def IsValidCell (c : Cell) : Prop := c = none ∨ c = some 0 ∨ c = some 1

instance (c : Cell) : Decidable (IsValidCell c) := by unfold IsValidCell; infer_instance

/-- A `boardSize × boardSize` board. -/
def Is3x3 (board : Board) : Prop :=
  board.length = boardSize ∧ ∀ r ∈ board, r.length = boardSize

instance (board : Board) : Decidable (Is3x3 board) := by unfold Is3x3; infer_instance

/-- A `boardSize × boardSize` board whose cells are empty, `0` or `1`. -/
def IsBoard (board : Board) : Prop :=
  Is3x3 board ∧ ∀ r ∈ board, ∀ c ∈ r, IsValidCell c

instance (board : Board) : Decidable (IsBoard board) := by unfold IsBoard; infer_instance

/-- Three cells hold the same player index. -/
def win3 (a b c : Cell) : Bool :=
  match a, b, c with
  | some x, some y, some z => x == y && y == z
  | _, _, _ => false

/-- The owner of the first complete line of the board with rows `a b c`, `d e f`
and `g h i`, scanning rows, columns, diagonal, anti-diagonal. -/
def winnerFlat (a b c d e f g h i : Cell) : Option Nat :=
  if win3 a b c then a else if win3 d e f then d else if win3 g h i then g
  else if win3 a d g then a else if win3 b e h then b else if win3 c f i then c
  else if win3 a e i then a else if win3 c e g then c else none

/-- The eight lines of the board as (row, column) coordinates, in the scan
order: rows 0 to 2, columns 0 to 2, main diagonal, anti-diagonal. -/
def lineCoords : List (List (Nat × Nat)) :=
  [[(0, 0), (0, 1), (0, 2)], [(1, 0), (1, 1), (1, 2)], [(2, 0), (2, 1), (2, 2)],
   [(0, 0), (1, 0), (2, 0)], [(0, 1), (1, 1), (2, 1)], [(0, 2), (1, 2), (2, 2)],
   [(0, 0), (1, 1), (2, 2)], [(0, 2), (1, 1), (2, 0)]]

/-- The cells of the eight lines of a board, in the scan order. -/
def lines (board : Board) : List (List (Option Cell)) :=
  lineCoords.map fun l => l.map fun p => cellAt board p.1 p.2

/-- A line is complete when its three cells are non-empty and equal. -/
def complete : List (Option Cell) → Bool
  | [some (some x), some (some y), some (some z)] => x == y && y == z
  | _ => false

/-- The values a search of a board with `n` empty cells can return at depth `d`:
`0`, or `100 - e` or `-100 + e` for the depth `e` of a leaf, `d ≤ e ≤ d + n`. -/
def LeafValue (d : Int) (n : Nat) (v : Int) : Prop :=
  v = 0 ∨ ∃ e : Int, d ≤ e ∧ e ≤ d + n ∧ (v = 100 - e ∨ v = -100 + e)

/-- The sign condition on a value: `0 ≤ v` when `s` is true, `v ≤ 0` otherwise. -/
def SignOk (s : Bool) (v : Int) : Prop := if s then 0 ≤ v else v ≤ 0

/-- The sign of the value of `minimax` on the board with rows `a b c`, `d e f`,
`g h i`, for player `p` (with `q` the other player), flag `m` (with `n` its
negation): with `s` true it tells whether the value is at least `0`, with `s`
false whether it is at most `0`. A winner decides the sign; otherwise one child
has to pass when the node optimises in the direction of `s`, and all children
otherwise. -/
def signFlat : Nat → Cell → Cell → Cell → Cell → Cell → Cell → Cell → Cell → Cell →
    Nat → Nat → Bool → Bool → Bool → Bool
  | 0, _, _, _, _, _, _, _, _, _, _, _, _, _, _ => false
  | fuel + 1, a, b, c, d, e, f, g, h, i, p, q, m, n, s =>
    match winnerFlat a b c d e f g h i with
    | some w => ((m && w == p) || (n && w != p)) == s
    | none =>
      if m == s then
        (a.isNone && signFlat fuel (some p) b c d e f g h i q p n m s) ||
        (b.isNone && signFlat fuel a (some p) c d e f g h i q p n m s) ||
        (c.isNone && signFlat fuel a b (some p) d e f g h i q p n m s) ||
        (d.isNone && signFlat fuel a b c (some p) e f g h i q p n m s) ||
        (e.isNone && signFlat fuel a b c d (some p) f g h i q p n m s) ||
        (f.isNone && signFlat fuel a b c d e (some p) g h i q p n m s) ||
        (g.isNone && signFlat fuel a b c d e f (some p) h i q p n m s) ||
        (h.isNone && signFlat fuel a b c d e f g (some p) i q p n m s) ||
        (i.isNone && signFlat fuel a b c d e f g h (some p) q p n m s) ||
        (a.isSome && b.isSome && c.isSome && d.isSome && e.isSome && f.isSome && g.isSome && h.isSome && i.isSome)
      else
        (a.isSome || signFlat fuel (some p) b c d e f g h i q p n m s) &&
        (b.isSome || signFlat fuel a (some p) c d e f g h i q p n m s) &&
        (c.isSome || signFlat fuel a b (some p) d e f g h i q p n m s) &&
        (d.isSome || signFlat fuel a b c (some p) e f g h i q p n m s) &&
        (e.isSome || signFlat fuel a b c d (some p) f g h i q p n m s) &&
        (f.isSome || signFlat fuel a b c d e (some p) g h i q p n m s) &&
        (g.isSome || signFlat fuel a b c d e f (some p) h i q p n m s) &&
        (h.isSome || signFlat fuel a b c d e f g (some p) i q p n m s) &&
        (i.isSome || signFlat fuel a b c d e f g h (some p) q p n m s)

/-! ## Double arithmetic on integers -/

theorem droppedBits_small (fuel n : Nat) (h : n < 2 ^ 53) : droppedBits fuel n = 0 := by
  cases fuel with
  | zero => rfl
  | succ f =>
    rw [droppedBits, if_pos h]

theorem roundNat_small {n : Nat} (h : n < 2 ^ 53) : roundNat n = n := by
  simp [roundNat, droppedBits_small n n h, Nat.mod_one]

theorem roundNat_two_pow : roundNat 9007199254740992 = 9007199254740992 := by decide

theorem toDouble_exact {x : Int} (h1 : -9007199254740992 ≤ x) (h2 : x ≤ 9007199254740992) :
    toDouble x = x := by
  unfold toDouble
  by_cases h : x.natAbs < 2 ^ 53
  · rw [roundNat_small h]
    split <;> omega
  · have he : x.natAbs = 9007199254740992 := by omega
    rw [he, roundNat_two_pow]
    split <;> omega

theorem toDouble_neg (x : Int) : toDouble (-x) = -toDouble x := by
  unfold toDouble
  rw [Int.natAbs_neg]
  by_cases h0 : x = 0
  · subst h0; simp [roundNat_small]
  · by_cases h : x < 0
    · have : ¬ (-x < 0) := by omega
      simp [h, this]
    · have : -x < 0 := by omega
      simp [h, this]

theorem jsAdd_exact {a b : Int} (h1 : -9007199254740992 ≤ a + b)
    (h2 : a + b ≤ 9007199254740992) : jsAdd a b = a + b :=
  toDouble_exact h1 h2

theorem jsSub_exact {a b : Int} (h1 : -9007199254740992 ≤ a - b)
    (h2 : a - b ≤ 9007199254740992) : jsSub a b = a - b :=
  toDouble_exact h1 h2

/-! ## Valid moves, the search loop and the recursion equation of `minimax` -/

theorem filterMap_ite_cons {α β : Type} (p : α → Prop) [DecidablePred p] (f : α → β) (a : α)
    (l : List α) :
    List.filterMap (fun j => if p j then some (f j) else none) (a :: l)
      = (if p a then [f a] else []) ++ List.filterMap (fun j => if p j then some (f j) else none) l := by
  by_cases h : p a <;> simp [List.filterMap_cons, h]

theorem range_boardSize : List.range boardSize = [0, 1, 2] := by decide

theorem getValidMoves_eq_append (board : Board) :
    getValidMoves board =
      emptyAt board 0 0 ++ emptyAt board 0 1 ++ emptyAt board 0 2 ++
      emptyAt board 1 0 ++ emptyAt board 1 1 ++ emptyAt board 1 2 ++
      emptyAt board 2 0 ++ emptyAt board 2 1 ++ emptyAt board 2 2 := by
  simp only [getValidMoves, range_boardSize, List.flatMap_cons, List.flatMap_nil,
    filterMap_ite_cons, List.filterMap_nil, emptyAt, List.append_nil, List.append_assoc]

theorem filter_cons_append {α : Type} (p : α → Bool) (a : α) (l : List α) :
    List.filter p (a :: l) = (if p a = true then [a] else []) ++ List.filter p l := by
  by_cases h : p a = true <;> simp [List.filter_cons, h]

theorem getValidMoves_eq_filter (board : Board) :
    getValidMoves board = rowMajor.filter fun m => decide (cellAt board m.y m.x = some none) := by
  rw [getValidMoves_eq_append]
  simp only [rowMajor, filter_cons_append, List.filter_nil, emptyAt, List.append_nil,
    List.append_assoc, decide_eq_true_eq]

theorem cellAt_setCell (board : Board) (y x : Nat) (v c : Cell) (h : cellAt board y x = some c)
    (i j : Nat) :
    cellAt (setCell board y x v) i j = if i = y ∧ j = x then some v else cellAt board i j := by
  simp only [cellAt, row, setCell, List.getD_eq_getElem?_getD, List.get?_eq_getElem?] at *
  have hy : y < board.length := by
    by_contra hy
    have e : board[y]? = none := List.getElem?_eq_none (by omega)
    rw [e] at h
    simp at h
  have hx : x < (board[y]?.getD []).length := by
    by_contra hx
    have e : (board[y]?.getD [])[x]? = none := List.getElem?_eq_none (by omega)
    rw [e] at h
    simp at h
  rw [List.getElem?_set]
  by_cases hi : y = i
  · subst hi
    simp only [hy, if_true, Option.getD_some, List.getElem?_set, true_and]
    by_cases hj : x = j
    · subst hj
      simp [hx]
    · have : ¬ j = x := fun e => hj e.symm
      simp [hj, this]
  · have : ¬ i = y := fun e => hi e.symm
    simp [hi, this]

theorem mem_getValidMoves (board : Board) (m : Move) :
    m ∈ getValidMoves board ↔ m ∈ rowMajor ∧ cellAt board m.y m.x = some none := by
  rw [getValidMoves_eq_filter, List.mem_filter, decide_eq_true_eq]

theorem emptyAt_setCell (board : Board) (y x : Nat) (v : Nat) (c : Cell)
    (h : cellAt board y x = some c) (i j : Nat) :
    emptyAt (setCell board y x (some v)) i j = if i = y ∧ j = x then [] else emptyAt board i j := by
  unfold emptyAt
  rw [cellAt_setCell board y x (some v) c h]
  by_cases e : i = y ∧ j = x <;> simp [e]

theorem length_getValidMoves_setCell (board : Board) (m : Move) (v : Nat)
    (h : m ∈ getValidMoves board) :
    (getValidMoves (setCell board m.y m.x (some v))).length + 1 = (getValidMoves board).length := by
  rw [mem_getValidMoves] at h
  obtain ⟨hm, hc⟩ := h
  have key : (emptyAt board m.y m.x).length = 1 := by simp [emptyAt, hc]
  simp only [getValidMoves_eq_append, List.length_append, emptyAt_setCell board m.y m.x v none hc]
  simp only [rowMajor, List.mem_cons, List.mem_singleton, List.not_mem_nil, or_false] at hm
  rcases hm with rfl | rfl | rfl | rfl | rfl | rfl | rfl | rfl | rfl <;>
    simp at key ⊢ <;> omega

theorem length_getValidMoves_le (board : Board) : (getValidMoves board).length ≤ 9 := by
  rw [getValidMoves_eq_filter]
  exact (List.length_filter_le _ _).trans (by simp [rowMajor])

theorem searchLoop_congr (m : Bool) (child child2 : Move → Option Result) (ms : List Move)
    (h : ∀ mv ∈ ms, child mv = child2 mv) (best : Result) :
    searchLoop m child ms best = searchLoop m child2 ms best := by
  induction ms generalizing best with
  | nil => rfl
  | cons a rest ih =>
    simp only [searchLoop]
    rw [h a (List.mem_cons_self _ _)]
    cases child2 a with
    | none => rfl
    | some r => exact ih (fun mv hmv => h mv (List.mem_cons_of_mem _ hmv)) _

theorem improves_some (m : Bool) (a b : Int) :
    improves m (some a) (some b) = true ↔ Better m a b := by
  cases m <;> simp [improves, Better, toNumber]

theorem searchLoop_best (m : Bool) (child : Move → Option Result) (ms : List Move)
    (h : ∀ mv ∈ ms, ∃ v mo, child mv = some ⟨some v, mo⟩) (bv : Int) (bm : Move) :
    ∃ v mv, searchLoop m child ms ⟨some bv, some bm⟩ = some ⟨some v, some mv⟩ ∧
      ((v = bv ∧ mv = bm ∧ ∀ u ∈ ms, ¬ Better m bv (valueOf (child u))) ∨
       (∃ i, ms[i]? = some mv ∧ v = valueOf (child mv) ∧ Better m bv v ∧
          (∀ j : Nat, j < i → ∀ u, ms[j]? = some u → Better m (valueOf (child u)) v) ∧
          ∀ u ∈ ms, ¬ Better m v (valueOf (child u)))) := by
  induction ms generalizing bv bm with
  | nil => exact ⟨bv, bm, rfl, Or.inl ⟨rfl, rfl, by simp⟩⟩
  | cons a rest ih =>
    obtain ⟨va, mo, ha⟩ := h a (List.mem_cons_self _ _)
    have hrest : ∀ mv ∈ rest, ∃ v mo, child mv = some ⟨some v, mo⟩ :=
      fun mv hmv => h mv (List.mem_cons_of_mem _ hmv)
    have hva : valueOf (child a) = va := by rw [ha]; rfl
    simp only [searchLoop, ha]
    by_cases hb : Better m bv va
    · rw [if_pos ((improves_some m bv va).2 hb)]
      obtain ⟨v, mv, hres, hspec⟩ := ih hrest va a
      refine ⟨v, mv, hres, Or.inr ?_⟩
      rcases hspec with ⟨rfl, rfl, hall⟩ | ⟨i, hi, hv, hbt, hbefore, hall⟩
      · refine ⟨0, by simp, hva.symm, hb, by simp, ?_⟩
        intro u hu
        rcases List.mem_cons.1 hu with rfl | hu
        · rw [hva]; cases m <;> simp [Better]
        · exact hall u hu
      · refine ⟨i + 1, by simpa using hi, hv, ?_, ?_, ?_⟩
        · cases m <;> simp only [Better] at * <;> simp at * <;> omega
        · intro j hj u hu
          cases j with
          | zero =>
            simp at hu
            subst hu
            rw [hva]; exact hbt
          | succ j => exact hbefore j (by omega) u (by simpa using hu)
        · intro u hu
          rcases List.mem_cons.1 hu with rfl | hu
          · rw [hva]; cases m <;> simp only [Better] at * <;> simp at * <;> omega
          · exact hall u hu
    · rw [if_neg (fun e => hb ((improves_some m bv va).1 e))]
      obtain ⟨v, mv, hres, hspec⟩ := ih hrest bv bm
      refine ⟨v, mv, hres, ?_⟩
      rcases hspec with ⟨rfl, rfl, hall⟩ | ⟨i, hi, hv, hbt, hbefore, hall⟩
      · refine Or.inl ⟨rfl, rfl, ?_⟩
        intro u hu
        rcases List.mem_cons.1 hu with rfl | hu
        · rw [hva]; exact hb
        · exact hall u hu
      · refine Or.inr ⟨i + 1, by simpa using hi, hv, hbt, ?_, ?_⟩
        · intro j hj u hu
          cases j with
          | zero =>
            simp at hu
            subst hu
            rw [hva]; cases m <;> simp only [Better] at * <;> simp at * <;> omega
          | succ j => exact hbefore j (by omega) u (by simpa using hu)
        · intro u hu
          rcases List.mem_cons.1 hu with rfl | hu
          · rw [hva]; cases m <;> simp only [Better] at * <;> simp at * <;> omega
          · exact hall u hu

theorem searchLoop_first (m : Bool) (child : Move → Option Result) (ms : List Move)
    (hne : ms ≠ []) (h : ∀ mv ∈ ms, ∃ v mo, child mv = some ⟨some v, mo⟩) :
    ∃ i mv, searchLoop m child ms ⟨none, none⟩ = some ⟨some (valueOf (child mv)), some mv⟩ ∧
      ms[i]? = some mv ∧
      (∀ j : Nat, j < i → ∀ u, ms[j]? = some u →
        Better m (valueOf (child u)) (valueOf (child mv))) ∧
      ∀ u ∈ ms, ¬ Better m (valueOf (child mv)) (valueOf (child u)) := by
  cases ms with
  | nil => exact absurd rfl hne
  | cons a rest =>
    obtain ⟨va, mo, ha⟩ := h a (List.mem_cons_self _ _)
    have hva : valueOf (child a) = va := by rw [ha]; rfl
    obtain ⟨v, mv, hres, hspec⟩ :=
      searchLoop_best m child rest (fun mv hmv => h mv (List.mem_cons_of_mem _ hmv)) va a
    have hstep : searchLoop m child (a :: rest) ⟨none, none⟩
        = searchLoop m child rest ⟨some va, some a⟩ := by
      simp [searchLoop, ha, improves]
    rw [hstep, hres]
    rcases hspec with ⟨rfl, rfl, hall⟩ | ⟨i, hi, hv, hbt, hbefore, hall⟩
    · refine ⟨0, mv, by rw [hva], by simp, by simp, ?_⟩
      intro u hu
      rcases List.mem_cons.1 hu with rfl | hu
      · cases m <;> simp [Better]
      · rw [hva]; exact hall u hu
    · refine ⟨i + 1, mv, by rw [hv], by simpa using hi, ?_, ?_⟩
      · intro j hj u hu
        cases j with
        | zero =>
          simp at hu
          subst hu
          rw [hva, ← hv]; exact hbt
        | succ j =>
          rw [← hv]
          exact hbefore j (by omega) u (by simpa using hu)
      · intro u hu
        rw [← hv]
        rcases List.mem_cons.1 hu with rfl | hu
        · rw [hva]; revert hbt; cases m <;> simp [Better] <;> omega
        · exact hall u hu

theorem minimax_eq (board : Board) (player : Nat) (maximizing : Bool) (depth : Int) :
    minimax board player maximizing depth =
      if getWinner board ≠ some (-1) then
        if (maximizing && getWinner board == some (player : Int))
            || (!maximizing && getWinner board != some (player : Int)) then
          some ⟨some (jsSub 100 depth), none⟩
        else
          some ⟨some (jsAdd (-100) depth), none⟩
      else if getWinner board = some (-1) ∧ (getValidMoves board).length = 0 then
        some ⟨some 0, none⟩
      else
        searchLoop maximizing (childResult board player maximizing depth)
          (getValidMoves board) ⟨none, none⟩ := by
  unfold minimax
  rw [minimaxAux]
  split
  · rfl
  · split
    · rfl
    · apply searchLoop_congr
      intro mv hmv
      simp only [childResult, minimax, childCall]
      rw [length_getValidMoves_setCell board mv player hmv]

theorem minimax_value (fuel : Nat) : ∀ (board : Board) (player : Nat) (maximizing : Bool)
    (depth : Int), (getValidMoves board).length < fuel →
    ∃ v mo, minimax board player maximizing depth = some ⟨some v, mo⟩ := by
  induction fuel with
  | zero => intro _ _ _ _ h; omega
  | succ fuel ih =>
    intro board player maximizing depth hlen
    rw [minimax_eq]
    split
    · split
      · exact ⟨_, _, rfl⟩
      · exact ⟨_, _, rfl⟩
    · split
      · exact ⟨_, _, rfl⟩
      · rename_i hw hne
        have hchild : ∀ mv ∈ getValidMoves board,
            ∃ v mo, childResult board player maximizing depth mv = some ⟨some v, mo⟩ := by
          intro mv hmv
          apply ih
          have := length_getValidMoves_setCell board mv player hmv
          simp only [childCall]
          omega
        obtain ⟨i, mv, hres, _⟩ := searchLoop_first maximizing _ (getValidMoves board)
          (by intro e; exact hne ⟨not_not.1 hw, by rw [e]; rfl⟩) hchild
        exact ⟨_, _, hres⟩

/-! ## Boards over {empty, 0, 1} and the winner scan -/

theorem is3x3_exists_cells {board : Board} (h : Is3x3 board) :
    ∃ a b c d e f g h i : Cell, board = [[a, b, c], [d, e, f], [g, h, i]] := by
  obtain ⟨hl, hr⟩ := h
  match board, hl, hr with
  | [r0, r1, r2], _, hr =>
    have h0 := hr r0 (by simp)
    have h1 := hr r1 (by simp)
    have h2 := hr r2 (by simp)
    match r0, r1, r2, h0, h1, h2 with
    | [a, b, c], [d, e, f], [g, h, i], _, _, _ => exact ⟨a, b, c, d, e, f, g, h, i, rfl⟩

theorem isBoard_exists_cells {board : Board} (h : IsBoard board) :
    ∃ a b c d e f g h i : Cell, board = [[a, b, c], [d, e, f], [g, h, i]] ∧
      IsValidCell a ∧ IsValidCell b ∧ IsValidCell c ∧ IsValidCell d ∧ IsValidCell e ∧
      IsValidCell f ∧ IsValidCell g ∧ IsValidCell h ∧ IsValidCell i := by
  obtain ⟨h3, hc⟩ := h
  obtain ⟨a, b, c, d, e, f, g, h, i, rfl⟩ := is3x3_exists_cells h3
  simp only [List.forall_mem_cons, List.not_mem_nil, false_imp_iff, implies_true,
    and_true] at hc
  obtain ⟨⟨ha, hb, hc⟩, ⟨hd, he, hf⟩, hg, hh, hi⟩ := hc
  exact ⟨a, b, c, d, e, f, g, h, i, rfl, ha, hb, hc, hd, he, hf, hg, hh, hi⟩

theorem regexMatch_join3 {a b c : Cell} (ha : IsValidCell a) (hb : IsValidCell b)
    (hc : IsValidCell c) : regexMatch (join [some a, some b, some c]) = win3 a b c := by
  rcases ha with rfl | rfl | rfl <;> rcases hb with rfl | rfl | rfl <;>
    rcases hc with rfl | rfl | rfl <;> decide

theorem win3_eq_true {a b c : Cell} (h : win3 a b c = true) :
    ∃ x, a = some x ∧ b = some x ∧ c = some x := by
  match a, b, c, h with
  | some x, some y, some z, h =>
    simp only [win3, Bool.and_eq_true, beq_iff_eq] at h
    obtain ⟨rfl, rfl⟩ := h
    exact ⟨x, rfl, rfl, rfl⟩

theorem getWinner_flat {a b c d e f g h i : Cell} (ha : IsValidCell a) (hb : IsValidCell b)
    (hc : IsValidCell c) (hd : IsValidCell d) (he : IsValidCell e) (hf : IsValidCell f)
    (hg : IsValidCell g) (hh : IsValidCell h) (hi : IsValidCell i) :
    getWinner [[a, b, c], [d, e, f], [g, h, i]] =
      match winnerFlat a b c d e f g h i with
      | some w => some (w : Int)
      | none => some (-1) := by
  have hcol0 : column [[a, b, c], [d, e, f], [g, h, i]] 0 = [some a, some d, some g] := rfl
  have hcol1 : column [[a, b, c], [d, e, f], [g, h, i]] 1 = [some b, some e, some h] := rfl
  have hcol2 : column [[a, b, c], [d, e, f], [g, h, i]] 2 = [some c, some f, some i] := rfl
  have hdiag : diagonal [[a, b, c], [d, e, f], [g, h, i]] = [some a, some e, some i] := rfl
  have hanti : antiDiagonal [[a, b, c], [d, e, f], [g, h, i]] = [some c, some e, some g] := rfl
  simp only [getWinner, range_boardSize, List.find?_cons, List.find?_nil, row, List.getD_cons_zero,
    List.getD_cons_succ, List.map_cons, List.map_nil, hcol0, hcol1, hcol2, hdiag, hanti,
    regexMatch_join3, ha, hb, hc, hd, he, hf, hg, hh, hi, winnerFlat]
  cases h0 : win3 a b c
  · simp only [Bool.false_eq_true, if_false]
    cases h1 : win3 d e f
    · simp only [Bool.false_eq_true, if_false]
      cases h2 : win3 g h i
      · simp only [Bool.false_eq_true, if_false]
        cases h3 : win3 a d g
        · simp only [Bool.false_eq_true, if_false]
          cases h4 : win3 b e h
          · simp only [Bool.false_eq_true, if_false]
            cases h5 : win3 c f i
            · simp only [Bool.false_eq_true, if_false]
              cases h6 : win3 a e i
              · simp only [Bool.false_eq_true, if_false]
                cases h7 : win3 c e g
                · simp only [Bool.false_eq_true, if_false]
                · obtain ⟨x, rfl, _, _⟩ := win3_eq_true h7
                  simp only [if_true]
                  rfl
              · obtain ⟨x, rfl, _, _⟩ := win3_eq_true h6
                simp only [if_true]
                rfl
            · obtain ⟨x, rfl, _, _⟩ := win3_eq_true h5
              simp only [if_true]
              rfl
          · obtain ⟨x, rfl, _, _⟩ := win3_eq_true h4
            simp only [if_true]
            rfl
        · obtain ⟨x, rfl, _, _⟩ := win3_eq_true h3
          simp only [if_true]
          rfl
      · obtain ⟨x, rfl, _, _⟩ := win3_eq_true h2
        simp only [if_true]
        rfl
    · obtain ⟨x, rfl, _, _⟩ := win3_eq_true h1
      simp only [if_true]
      rfl
  · obtain ⟨x, rfl, _, _⟩ := win3_eq_true h0
    simp only [if_true]
    rfl

theorem complete_eq_win3 (a b c : Cell) : complete [some a, some b, some c] = win3 a b c := by
  cases a <;> cases b <;> cases c <;> rfl

theorem lines_flat (a b c d e f g h i : Cell) :
    lines [[a, b, c], [d, e, f], [g, h, i]] =
      [[some a, some b, some c], [some d, some e, some f], [some g, some h, some i],
       [some a, some d, some g], [some b, some e, some h], [some c, some f, some i],
       [some a, some e, some i], [some c, some e, some g]] := rfl

theorem winnerFlat_eq_none {a b c d e f g h i : Cell} :
    winnerFlat a b c d e f g h i = none ↔
      win3 a b c = false ∧ win3 d e f = false ∧ win3 g h i = false ∧ win3 a d g = false ∧
      win3 b e h = false ∧ win3 c f i = false ∧ win3 a e i = false ∧ win3 c e g = false := by
  unfold winnerFlat
  cases h0 : win3 a b c
  · simp only [Bool.false_eq_true, if_false, true_and]
    cases h1 : win3 d e f
    · simp only [Bool.false_eq_true, if_false, true_and]
      cases h2 : win3 g h i
      · simp only [Bool.false_eq_true, if_false, true_and]
        cases h3 : win3 a d g
        · simp only [Bool.false_eq_true, if_false, true_and]
          cases h4 : win3 b e h
          · simp only [Bool.false_eq_true, if_false, true_and]
            cases h5 : win3 c f i
            · simp only [Bool.false_eq_true, if_false, true_and]
              cases h6 : win3 a e i
              · simp only [Bool.false_eq_true, if_false, true_and]
                cases h7 : win3 c e g
                · simp only [Bool.false_eq_true, if_false, true_and]
                · obtain ⟨x, rfl, _, _⟩ := win3_eq_true h7
                  simp
              · obtain ⟨x, rfl, _, _⟩ := win3_eq_true h6
                simp
            · obtain ⟨x, rfl, _, _⟩ := win3_eq_true h5
              simp
          · obtain ⟨x, rfl, _, _⟩ := win3_eq_true h4
            simp
        · obtain ⟨x, rfl, _, _⟩ := win3_eq_true h3
          simp
      · obtain ⟨x, rfl, _, _⟩ := win3_eq_true h2
        simp
    · obtain ⟨x, rfl, _, _⟩ := win3_eq_true h1
      simp
  · obtain ⟨x, rfl, _, _⟩ := win3_eq_true h0
    simp

theorem find_lines_flat (a b c d e f g h i : Cell) :
    (lines [[a, b, c], [d, e, f], [g, h, i]]).find? complete =
      if win3 a b c then some [some a, some b, some c]
      else if win3 d e f then some [some d, some e, some f]
      else if win3 g h i then some [some g, some h, some i]
      else if win3 a d g then some [some a, some d, some g]
      else if win3 b e h then some [some b, some e, some h]
      else if win3 c f i then some [some c, some f, some i]
      else if win3 a e i then some [some a, some e, some i]
      else if win3 c e g then some [some c, some e, some g]
      else none := by
  simp only [lines_flat, List.find?_cons, List.find?_nil, complete_eq_win3]
  cases h0 : win3 a b c
  · simp only [Bool.false_eq_true, if_false]
    cases h1 : win3 d e f
    · simp only [Bool.false_eq_true, if_false]
      cases h2 : win3 g h i
      · simp only [Bool.false_eq_true, if_false]
        cases h3 : win3 a d g
        · simp only [Bool.false_eq_true, if_false]
          cases h4 : win3 b e h
          · simp only [Bool.false_eq_true, if_false]
            cases h5 : win3 c f i
            · simp only [Bool.false_eq_true, if_false]
              cases h6 : win3 a e i
              · simp only [Bool.false_eq_true, if_false]
                cases h7 : win3 c e g
                · simp only [Bool.false_eq_true, if_false]
                · simp only [if_true]
              · simp only [if_true]
            · simp only [if_true]
          · simp only [if_true]
        · simp only [if_true]
      · simp only [if_true]
    · simp only [if_true]
  · simp only [if_true]

theorem scan_flat (a b c d e f g h i : Cell) :
    (∃ k : Nat, (lines [[a, b, c], [d, e, f], [g, h, i]]).find? complete
          = some [some (some k), some (some k), some (some k)] ∧
        winnerFlat a b c d e f g h i = some k) ∨
    ((lines [[a, b, c], [d, e, f], [g, h, i]]).find? complete = none ∧
        winnerFlat a b c d e f g h i = none) := by
  rw [find_lines_flat]
  unfold winnerFlat
  cases h0 : win3 a b c
  · simp only [Bool.false_eq_true, if_false]
    cases h1 : win3 d e f
    · simp only [Bool.false_eq_true, if_false]
      cases h2 : win3 g h i
      · simp only [Bool.false_eq_true, if_false]
        cases h3 : win3 a d g
        · simp only [Bool.false_eq_true, if_false]
          cases h4 : win3 b e h
          · simp only [Bool.false_eq_true, if_false]
            cases h5 : win3 c f i
            · simp only [Bool.false_eq_true, if_false]
              cases h6 : win3 a e i
              · simp only [Bool.false_eq_true, if_false]
                cases h7 : win3 c e g
                · simp only [Bool.false_eq_true, if_false]
                  simp
                · obtain ⟨x, rfl, rfl, rfl⟩ := win3_eq_true h7
                  exact Or.inl ⟨x, by simp only [if_true], by simp only [if_true]⟩
              · obtain ⟨x, rfl, rfl, rfl⟩ := win3_eq_true h6
                exact Or.inl ⟨x, by simp only [if_true], by simp only [if_true]⟩
            · obtain ⟨x, rfl, rfl, rfl⟩ := win3_eq_true h5
              exact Or.inl ⟨x, by simp only [if_true], by simp only [if_true]⟩
          · obtain ⟨x, rfl, rfl, rfl⟩ := win3_eq_true h4
            exact Or.inl ⟨x, by simp only [if_true], by simp only [if_true]⟩
        · obtain ⟨x, rfl, rfl, rfl⟩ := win3_eq_true h3
          exact Or.inl ⟨x, by simp only [if_true], by simp only [if_true]⟩
      · obtain ⟨x, rfl, rfl, rfl⟩ := win3_eq_true h2
        exact Or.inl ⟨x, by simp only [if_true], by simp only [if_true]⟩
    · obtain ⟨x, rfl, rfl, rfl⟩ := win3_eq_true h1
      exact Or.inl ⟨x, by simp only [if_true], by simp only [if_true]⟩
  · obtain ⟨x, rfl, rfl, rfl⟩ := win3_eq_true h0
    exact Or.inl ⟨x, by simp only [if_true], by simp only [if_true]⟩

/-- Claim C1: on a board over {empty, 0, 1}, `getWinner` returns the identifier filling
the first complete line in the scan order rows, columns, diagonal, anti-diagonal,
and returns `-1` exactly when no line is complete. -/
theorem getWinner_first_complete_line (board : Board) (hb : IsBoard board) :
    (∀ l, (lines board).find? complete = some l →
      ∃ k : Nat, l = [some (some k), some (some k), some (some k)] ∧
        getWinner board = some (k : Int)) ∧
    ((lines board).find? complete = none → getWinner board = some (-1)) ∧
    (getWinner board = some (-1) ↔ ∀ l ∈ lines board, complete l = false) := by
  obtain ⟨a, b, c, d, e, f, g, h, i, rfl, ha, hb, hc, hd, he, hf, hg, hh, hi⟩ := isBoard_exists_cells hb
  have hflat := getWinner_flat ha hb hc hd he hf hg hh hi
  refine ⟨?_, ?_, ?_⟩
  · intro l hl
    rcases scan_flat a b c d e f g h i with ⟨k, hk, hw⟩ | ⟨hn, _⟩
    · rw [hk] at hl
      refine ⟨k, (Option.some.inj hl).symm, ?_⟩
      rw [hflat, hw]
    · rw [hn] at hl
      cases hl
  · intro hl
    rcases scan_flat a b c d e f g h i with ⟨k, hk, _⟩ | ⟨_, hw⟩
    · rw [hk] at hl
      cases hl
    · rw [hflat, hw]
  · rw [hflat]
    have hiff : (match winnerFlat a b c d e f g h i with
        | some w => some (w : Int)
        | none => some (-1)) = some (-1) ↔ winnerFlat a b c d e f g h i = none := by
      cases winnerFlat a b c d e f g h i with
      | none => simp
      | some w =>
        simp only [Option.some.injEq, reduceCtorEq, iff_false]
    rw [hiff, winnerFlat_eq_none]
    simp only [lines_flat, List.forall_mem_cons, complete_eq_win3, List.not_mem_nil,
      false_imp_iff, implies_true, and_true]

theorem getWinner_first_complete_line_witness :
    IsBoard [[some 1, none, some 0], [some 1, some 0, none], [some 1, some 0, some 0]] ∧
    ∃ k : Nat, [some (some 1), some (some 1), some (some 1)]
        = [some (some k), some (some k), some (some k)] ∧
      getWinner [[some 1, none, some 0], [some 1, some 0, none], [some 1, some 0, some 0]]
        = some (k : Int) :=
  ⟨by decide,
    (getWinner_first_complete_line
      [[some 1, none, some 0], [some 1, some 0, none], [some 1, some 0, some 0]]
      (by decide)).1 _ (by decide)⟩

/-! ## Terminal values, the recursive case and the returned move -/

theorem minimax_nonterminal (board : Board) (p : Nat) (m : Bool) (d : Int)
    (hw : getWinner board = some (-1)) (hne : getValidMoves board ≠ []) :
    ∃ i mv, minimax board p m d = some ⟨some (valueOf (childResult board p m d mv)), some mv⟩ ∧
      (getValidMoves board)[i]? = some mv ∧
      (∀ j : Nat, j < i → ∀ u, (getValidMoves board)[j]? = some u →
        Better m (valueOf (childResult board p m d u)) (valueOf (childResult board p m d mv))) ∧
      ∀ u ∈ getValidMoves board,
        ¬ Better m (valueOf (childResult board p m d mv)) (valueOf (childResult board p m d u)) := by
  rw [minimax_eq, if_neg (by simp [hw]), if_neg (by simp [hne])]
  exact searchLoop_first m _ _ hne
    (fun mv _ => minimax_value _ _ _ _ _ (Nat.lt_succ_self _))

theorem minimax_winner (board : Board) (p : Nat) (m : Bool) (d : Int)
    (hw : getWinner board ≠ some (-1)) :
    minimax board p m d =
      some ⟨some (if (m && getWinner board == some (p : Int))
          || (!m && getWinner board != some (p : Int)) then jsSub 100 d
          else jsAdd (-100) d), none⟩ := by
  rw [minimax_eq, if_pos hw]
  split <;> rfl

theorem minimax_draw (board : Board) (p : Nat) (m : Bool) (d : Int)
    (hw : getWinner board = some (-1)) (hm : getValidMoves board = []) :
    minimax board p m d = some ⟨some 0, none⟩ := by
  rw [minimax_eq, if_neg (by simp [hw]), if_pos ⟨hw, by simp [hm]⟩]

theorem mem_rowMajor (m : Move) : m ∈ rowMajor ↔ m.x < boardSize ∧ m.y < boardSize := by
  constructor
  · intro h
    simp only [rowMajor, List.mem_cons, List.mem_singleton, List.not_mem_nil, or_false] at h
    rcases h with rfl | rfl | rfl | rfl | rfl | rfl | rfl | rfl | rfl <;> decide
  · obtain ⟨x, y⟩ := m
    rintro ⟨hx, hy⟩
    simp only [boardSize] at hx hy
    interval_cases x <;> interval_cases y <;> simp [rowMajor]

/-- Claim C8: on a 3x3 board `getValidMoves` returns exactly the coordinates of the
empty cells, each once, in row-major order; it returns the nine coordinates for
`generateBoard()` and nothing for a board without an empty cell. -/
theorem getValidMoves_row_major (board : Board) (_h : Is3x3 board) :
    getValidMoves board
        = rowMajor.filter (fun m => decide (cellAt board m.y m.x = some none)) ∧
    (∀ m, m ∈ getValidMoves board ↔
      m.x < boardSize ∧ m.y < boardSize ∧ cellAt board m.y m.x = some none) ∧
    (getValidMoves board).Nodup ∧
    (getValidMoves board).Pairwise (fun m n => m.y < n.y ∨ (m.y = n.y ∧ m.x < n.x)) ∧
    ((∀ i j, i < boardSize → j < boardSize → cellAt board i j ≠ some none) →
      getValidMoves board = []) ∧
    getValidMoves generateBoard = rowMajor ∧ (getValidMoves generateBoard).length = 9 := by
  refine ⟨getValidMoves_eq_filter board, ?_, ?_, ?_, ?_, by decide, by decide⟩
  · intro m
    rw [mem_getValidMoves, mem_rowMajor, and_assoc]
  · rw [getValidMoves_eq_filter]
    exact List.Nodup.filter _ (by decide)
  · rw [getValidMoves_eq_filter]
    exact List.Pairwise.filter _ (by decide)
  · intro hfull
    rw [List.eq_nil_iff_forall_not_mem]
    intro m hm
    rw [mem_getValidMoves, mem_rowMajor] at hm
    exact hfull m.y m.x hm.1.2 hm.1.1 hm.2

theorem getValidMoves_row_major_witness :
    Is3x3 [[some 1, none, some 0], [none, some 0, none], [some 1, some 0, some 0]] ∧
    getValidMoves [[some 1, none, some 0], [none, some 0, none], [some 1, some 0, some 0]]
      = [⟨1, 0⟩, ⟨0, 1⟩, ⟨2, 1⟩] :=
  ⟨by decide,
    (getValidMoves_row_major
      [[some 1, none, some 0], [none, some 0, none], [some 1, some 0, some 0]]
      (by decide)).1.trans (by decide)⟩

/-- Claim C2, as stated, fails: `100 - depth` is computed in double arithmetic.
On a board won by player `0`, the call for player `0` with `maximizing = true` at
the depth `2 ^ 60` returns the value `-(2 ^ 60 - 128)`, the double nearest to
`100 - 2 ^ 60`, and not `100 - 2 ^ 60`. -/
theorem minimax_terminal_every_depth_fails :
    ¬ ∀ (board : Board) (p : Nat) (maximizing : Bool) (depth : Int), IsBoard board → p ≤ 1 →
      IsDouble depth → ∀ w : Int, getWinner board = some w → w ≠ -1 →
        minimax board p maximizing depth =
          some ⟨some (if (maximizing = true ∧ w = p) ∨ (maximizing = false ∧ w ≠ p)
            then 100 - depth else -100 + depth), none⟩ := by
  intro h
  have h1 := h [[some 0, some 0, some 0], [some 1, some 1, none], [none, none, none]] 0 true
    1152921504606846976 (by decide) (by decide) (by decide) 0 (by decide) (by decide)
  have h2 : minimax [[some 0, some 0, some 0], [some 1, some 1, none], [none, none, none]] 0
      true 1152921504606846976 = some ⟨some (-1152921504606846848), none⟩ := by decide
  rw [h2] at h1
  revert h1
  decide

/-- Claim C2, amended: on a terminal board `minimax` returns move `null`; with a
winner `w` the value is `100 - depth` when (maximizing and `w = p`) or (not
maximizing and `w ≠ p`), and `-100 + depth` otherwise, both computed in double
arithmetic, hence exactly `100 - depth` and `-100 + depth` for every integer
depth with `|depth| ≤ 2 ^ 53 - 100`; with no winner and no empty cell the value
is `0`. -/
theorem minimax_terminal (board : Board) (p : Nat) (maximizing : Bool) (depth : Int)
    (_hb : IsBoard board) (_hp : p ≤ 1) (_hd : IsDouble depth) :
    (∀ w : Int, getWinner board = some w → w ≠ -1 →
      minimax board p maximizing depth =
        some ⟨some (if (maximizing = true ∧ w = p) ∨ (maximizing = false ∧ w ≠ p)
          then jsSub 100 depth else jsAdd (-100) depth), none⟩) ∧
    (-9007199254740892 ≤ depth → depth ≤ 9007199254740892 →
      ∀ w : Int, getWinner board = some w → w ≠ -1 →
        minimax board p maximizing depth =
          some ⟨some (if (maximizing = true ∧ w = p) ∨ (maximizing = false ∧ w ≠ p)
            then 100 - depth else -100 + depth), none⟩) ∧
    (getWinner board = some (-1) → getValidMoves board = [] →
      minimax board p maximizing depth = some ⟨some 0, none⟩) := by
  have hgen : ∀ w : Int, getWinner board = some w → w ≠ -1 →
      minimax board p maximizing depth =
        some ⟨some (if (maximizing = true ∧ w = p) ∨ (maximizing = false ∧ w ≠ p)
          then jsSub 100 depth else jsAdd (-100) depth), none⟩ := by
    intro w hw hne
    rw [minimax_winner board p maximizing depth (by rw [hw]; simpa using hne), hw]
    cases maximizing <;> simp
  refine ⟨hgen, ?_, minimax_draw board p maximizing depth⟩
  intro h1 h2 w hw hne
  rw [hgen w hw hne, jsSub_exact (by omega) (by omega), jsAdd_exact (by omega) (by omega)]

/-- Claim C3: on a board with no winner and an empty cell, with `m_i` the valid moves
in order and `v_i` the value of the recursive call on the board with the cell of
`m_i` set to the mover `p` (the `player` argument), for the other player, with
the flag flipped and the depth `depth + 1` of the source (a double addition,
equal to `d + 1` for `-2 ^ 53 ≤ d < 2 ^ 53`): `minimax` returns the maximum of
the `v_i` when maximizing and the minimum otherwise, with the move `m_i` of the
smallest index `i` whose `v_i` equals that value. -/
theorem minimax_recursive (board : Board) (p : Nat) (maximizing : Bool) (d : Int)
    (_hb : IsBoard board) (_hp : p ≤ 1) (_hd : IsDouble d) (hw : getWinner board = some (-1))
    (hne : getValidMoves board ≠ []) :
    ∃ (vs : List Int) (i : Nat) (mv : Move) (v : Int),
      (getValidMoves board).map (fun mi =>
          (minimax (setCell board mi.y mi.x (some p)) (nextPlayer p) (!maximizing)
            (jsAdd d 1)).bind Result.value) = vs.map some ∧
      (-9007199254740992 ≤ d → d < 9007199254740992 →
        (getValidMoves board).map (fun mi =>
          (minimax (setCell board mi.y mi.x (some p)) (nextPlayer p) (!maximizing)
            (d + 1)).bind Result.value) = vs.map some) ∧
      minimax board p maximizing d = some ⟨some v, some mv⟩ ∧
      (getValidMoves board)[i]? = some mv ∧ vs[i]? = some v ∧
      (∀ u ∈ vs, if maximizing = true then u ≤ v else v ≤ u) ∧
      ∀ j : Nat, j < i → vs[j]? ≠ some v := by
  obtain ⟨i, mv, hres, hi, hbefore, hall⟩ := minimax_nonterminal board p maximizing d hw hne
  have hvs : (getValidMoves board).map (fun mi =>
      (minimax (setCell board mi.y mi.x (some p)) (nextPlayer p) (!maximizing)
        (jsAdd d 1)).bind Result.value)
      = ((getValidMoves board).map fun mi =>
          valueOf (childResult board p maximizing d mi)).map some := by
    rw [List.map_map]
    apply List.map_congr_left
    intro mi _
    obtain ⟨v, mo, hv⟩ := minimax_value _ (setCell board mi.y mi.x (some p)) (nextPlayer p)
      (!maximizing) (jsAdd d 1) (Nat.lt_succ_self _)
    simp only [Function.comp, childResult, childCall, hv, valueOf, Option.bind]
  refine ⟨(getValidMoves board).map fun mi => valueOf (childResult board p maximizing d mi),
    i, mv, _, hvs, ?_, hres, hi, ?_, ?_, ?_⟩
  · intro h1 h2
    rw [← jsAdd_exact (a := d) (b := 1) (by omega) (by omega)]
    exact hvs
  · rw [List.getElem?_map, hi]
    rfl
  · intro u hu
    obtain ⟨mi, hmi, rfl⟩ := List.mem_map.1 hu
    have := hall mi hmi
    revert this
    cases maximizing <;> simp [Better]
  · intro j hj hv
    rw [List.getElem?_map] at hv
    cases hu : (getValidMoves board)[j]? with
    | none => rw [hu] at hv; cases hv
    | some u =>
      rw [hu] at hv
      have hb := hbefore j hj u hu
      have heq : valueOf (childResult board p maximizing d u)
          = valueOf (childResult board p maximizing d mv) := Option.some.inj hv
      rw [heq] at hb
      revert hb
      cases maximizing <;> simp [Better]

theorem minimax_recursive_witness :
    IsBoard [[some 1, some 1, none], [some 0, some 0, none], [some 1, some 0, some 1]] ∧
    ∃ (vs : List Int) (i : Nat) (mv : Move) (v : Int),
      (getValidMoves [[some 1, some 1, none], [some 0, some 0, none], [some 1, some 0, some 1]]).map
        (fun mi =>
          (minimax (setCell [[some 1, some 1, none], [some 0, some 0, none],
              [some 1, some 0, some 1]] mi.y mi.x (some 0)) (nextPlayer 0) (!true)
            (jsAdd 0 1)).bind Result.value) = vs.map some ∧
      minimax [[some 1, some 1, none], [some 0, some 0, none], [some 1, some 0, some 1]] 0 true 0
        = some ⟨some v, some mv⟩ ∧
      (getValidMoves [[some 1, some 1, none], [some 0, some 0, none],
        [some 1, some 0, some 1]])[i]? = some mv ∧ vs[i]? = some v ∧
      (∀ u ∈ vs, if true = true then u ≤ v else v ≤ u) ∧
      ∀ j : Nat, j < i → vs[j]? ≠ some v := by
  obtain ⟨vs, i, mv, v, h1, _, h3⟩ :=
    minimax_recursive [[some 1, some 1, none], [some 0, some 0, none], [some 1, some 0, some 1]]
      0 true 0 (by decide) (by decide) (by decide) (by decide) (by decide)
  exact ⟨by decide, vs, i, mv, v, h1, h3⟩

/-- Claim C4: the move returned by `minimax` is never the coordinate of a non-empty
cell: on a terminal board (a winner, or no empty cell) the move is `null`;
otherwise the move is non-null, lies inside the board and its cell is empty. -/
theorem minimax_move_empty (board : Board) (p : Nat) (maximizing : Bool) (depth : Int)
    (_hb : IsBoard board) (_hp : p ≤ 1) :
    ((getWinner board ≠ some (-1) ∨ getValidMoves board = []) →
      ∃ v, minimax board p maximizing depth = some ⟨some v, none⟩) ∧
    (getWinner board = some (-1) → getValidMoves board ≠ [] →
      ∃ v mv, minimax board p maximizing depth = some ⟨some v, some mv⟩ ∧
        mv.x < boardSize ∧ mv.y < boardSize ∧ cellAt board mv.y mv.x = some none) := by
  constructor
  · intro h
    by_cases hw : getWinner board = some (-1)
    · rcases h with h | h
      · exact absurd hw h
      · exact ⟨_, minimax_draw board p maximizing depth hw h⟩
    · exact ⟨_, minimax_winner board p maximizing depth hw⟩
  · intro hw hne
    obtain ⟨i, mv, hres, hi, _, _⟩ := minimax_nonterminal board p maximizing depth hw hne
    have hmem : mv ∈ getValidMoves board := List.getElem?_mem hi
    rw [mem_getValidMoves, mem_rowMajor] at hmem
    exact ⟨_, mv, hres, hmem.1.1, hmem.1.2, hmem.2⟩

theorem minimax_move_empty_witness :
    IsBoard [[some 1, some 1, none], [some 0, some 0, none], [some 1, some 0, some 1]] ∧
    ∃ v mv, minimax [[some 1, some 1, none], [some 0, some 0, none], [some 1, some 0, some 1]]
        0 true 0 = some ⟨some v, some mv⟩ ∧
      mv.x < boardSize ∧ mv.y < boardSize ∧
      cellAt [[some 1, some 1, none], [some 0, some 0, none], [some 1, some 0, some 1]]
        mv.y mv.x = some none :=
  ⟨by decide,
    (minimax_move_empty [[some 1, some 1, none], [some 0, some 0, none],
      [some 1, some 0, some 1]] 0 true 0 (by decide) (by decide)).2 (by decide) (by decide)⟩

theorem minimax_terminal_witness :
    IsBoard [[some 1, some 1, some 1], [some 0, some 0, none], [none, some 0, none]] ∧
    IsDouble 3 ∧
    minimax [[some 1, some 1, some 1], [some 0, some 0, none], [none, some 0, none]] 0 true 3
      = some ⟨some (-97), none⟩ :=
  ⟨by decide, by decide,
    (minimax_terminal [[some 1, some 1, some 1], [some 0, some 0, none], [none, some 0, none]]
      0 true 3 (by decide) (by decide) (by decide)).2.1 (by decide) (by decide) 1 (by decide)
      (by decide)⟩

theorem isValidCell_some {v : Nat} (h : v ≤ 1) : IsValidCell (some v) := by
  unfold IsValidCell
  interval_cases v <;> simp

theorem isBoard_flat {a b c d e f g h i : Cell} (ha : IsValidCell a) (hb : IsValidCell b)
    (hc : IsValidCell c) (hd : IsValidCell d) (he : IsValidCell e) (hf : IsValidCell f)
    (hg : IsValidCell g) (hh : IsValidCell h) (hi : IsValidCell i) :
    IsBoard [[a, b, c], [d, e, f], [g, h, i]] := by
  refine ⟨⟨rfl, by simp [boardSize]⟩, ?_⟩
  simp only [List.forall_mem_cons, List.not_mem_nil, false_imp_iff, implies_true, and_true]
  exact ⟨⟨ha, hb, hc⟩, ⟨hd, he, hf⟩, hg, hh, hi⟩

theorem isBoard_setCell {board : Board} (hb : IsBoard board) {v : Nat} (hv : v ≤ 1)
    {mv : Move} (hmv : mv ∈ getValidMoves board) :
    IsBoard (setCell board mv.y mv.x (some v)) := by
  obtain ⟨a, b, c, d, e, f, g, h, i, rfl, ha, hb, hc, hd, he, hf, hg, hh, hi⟩ := isBoard_exists_cells hb
  have hs := isValidCell_some hv
  rw [mem_getValidMoves] at hmv
  have hm := hmv.1
  simp only [rowMajor, List.mem_cons, List.mem_singleton, List.not_mem_nil, or_false] at hm
  rcases hm with rfl | rfl | rfl | rfl | rfl | rfl | rfl | rfl | rfl
  · exact isBoard_flat hs hb hc hd he hf hg hh hi
  · exact isBoard_flat ha hs hc hd he hf hg hh hi
  · exact isBoard_flat ha hb hs hd he hf hg hh hi
  · exact isBoard_flat ha hb hc hs he hf hg hh hi
  · exact isBoard_flat ha hb hc hd hs hf hg hh hi
  · exact isBoard_flat ha hb hc hd he hs hg hh hi
  · exact isBoard_flat ha hb hc hd he hf hs hh hi
  · exact isBoard_flat ha hb hc hd he hf hg hs hi
  · exact isBoard_flat ha hb hc hd he hf hg hh hs

theorem winnerFlat_mem {a b c d e f g h i : Cell} {w : Nat}
    (hw : winnerFlat a b c d e f g h i = some w) :
    a = some w ∨ b = some w ∨ c = some w ∨ d = some w ∨ g = some w := by
  unfold winnerFlat at hw
  split_ifs at hw <;> simp_all

theorem getWinner_values {board : Board} (hb : IsBoard board) :
    getWinner board = some (-1) ∨ getWinner board = some 0 ∨ getWinner board = some 1 := by
  obtain ⟨a, b, c, d, e, f, g, h, i, rfl, ha, hb, hc, hd, he, hf, hg, hh, hi⟩ := isBoard_exists_cells hb
  rw [getWinner_flat ha hb hc hd he hf hg hh hi]
  cases hw : winnerFlat a b c d e f g h i with
  | none => exact Or.inl rfl
  | some w =>
    have hval : IsValidCell (some w) := by
      rcases winnerFlat_mem hw with rfl | rfl | rfl | rfl | rfl <;> assumption
    rcases hval with hval | hval | hval
    · cases hval
    · cases hval; exact Or.inr (Or.inl rfl)
    · cases hval; exact Or.inr (Or.inr rfl)

theorem nextPlayer_ne (p : Nat) : nextPlayer p ≠ p := by
  unfold nextPlayer
  split <;> omega

theorem nextPlayer_le (p : Nat) : nextPlayer p ≤ 1 := by
  unfold nextPlayer
  split <;> omega

theorem childResult_eq (board : Board) (p : Nat) (m : Bool) (d : Int) (mv : Move) :
    childResult board p m d mv
      = minimax (setCell board mv.y mv.x (some p)) (nextPlayer p) (!m) (jsAdd d 1) := rfl

theorem childResult_exact (board : Board) (p : Nat) (m : Bool) (d : Int) (mv : Move)
    (h1 : -9007199254740992 ≤ d + 1) (h2 : d + 1 ≤ 9007199254740992) :
    childResult board p m d mv
      = minimax (setCell board mv.y mv.x (some p)) (nextPlayer p) (!m) (d + 1) := by
  rw [childResult_eq, jsAdd_exact h1 h2]

theorem minimax_leafValue (fuel : Nat) : ∀ (board : Board) (p : Nat) (m : Bool) (d : Int),
    (getValidMoves board).length < fuel → 0 ≤ d → d + (getValidMoves board).length ≤ 1000 →
    ∀ v mo, minimax board p m d = some ⟨some v, mo⟩ →
    LeafValue d (getValidMoves board).length v := by
  induction fuel with
  | zero => intro _ _ _ _ h; omega
  | succ fuel ih =>
    intro board p m d hlen hd0 hd1 v mo hres
    by_cases hw : getWinner board = some (-1)
    · by_cases hne : getValidMoves board = []
      · rw [minimax_draw board p m d hw hne] at hres
        simp only [Option.some.injEq, Result.mk.injEq] at hres
        exact Or.inl hres.1.symm
      · obtain ⟨i, mv, hres2, hi, _, _⟩ := minimax_nonterminal board p m d hw hne
        rw [hres2] at hres
        simp only [Option.some.injEq, Result.mk.injEq] at hres
        have hmem : mv ∈ getValidMoves board := List.getElem?_mem hi
        have hl := length_getValidMoves_setCell board mv p hmem
        obtain ⟨cv, cmo, hc⟩ := minimax_value _ (setCell board mv.y mv.x (some p))
          (nextPlayer p) (!m) (d + 1) (Nat.lt_succ_self _)
        have hleaf := ih (setCell board mv.y mv.x (some p)) (nextPlayer p) (!m) (d + 1)
          (by omega) (by omega) (by omega) cv cmo hc
        have hcv : valueOf (childResult board p m d mv) = cv := by
          rw [childResult_exact _ _ _ _ _ (by omega) (by omega), hc]
          rfl
        rw [hcv] at hres
        rw [← hres.1]
        rcases hleaf with h0 | ⟨e, h1, h2, h3⟩
        · exact Or.inl h0
        · refine Or.inr ⟨e, by omega, ?_, h3⟩
          have : ((getValidMoves board).length : Int)
              = ((getValidMoves (setCell board mv.y mv.x (some p))).length : Int) + 1 := by
            exact_mod_cast hl.symm
          omega
    · rw [minimax_winner board p m d hw, jsSub_exact (by omega) (by omega),
        jsAdd_exact (by omega) (by omega)] at hres
      simp only [Option.some.injEq, Result.mk.injEq] at hres
      refine Or.inr ⟨d, le_refl _, by omega, ?_⟩
      rw [← hres.1]
      split
      · exact Or.inl rfl
      · exact Or.inr rfl

theorem minimax_leafValue_step (board : Board) (p : Nat) (m : Bool) (d : Int)
    (hd0 : 0 ≤ d) (hd1 : d + (getValidMoves board).length ≤ 1000)
    (hw : getWinner board = some (-1)) (hne : getValidMoves board ≠ [])
    (v : Int) (mo : Option Move) (hres : minimax board p m d = some ⟨some v, mo⟩) :
    LeafValue (d + 1) ((getValidMoves board).length - 1) v := by
  obtain ⟨i, mv, hres2, hi, _, _⟩ := minimax_nonterminal board p m d hw hne
  rw [hres2] at hres
  simp only [Option.some.injEq, Result.mk.injEq] at hres
  have hmem : mv ∈ getValidMoves board := List.getElem?_mem hi
  have hl := length_getValidMoves_setCell board mv p hmem
  obtain ⟨cv, cmo, hc⟩ := minimax_value _ (setCell board mv.y mv.x (some p))
    (nextPlayer p) (!m) (d + 1) (Nat.lt_succ_self _)
  have hleaf := minimax_leafValue _ (setCell board mv.y mv.x (some p)) (nextPlayer p) (!m)
    (d + 1) (Nat.lt_succ_self _) (by omega) (by omega) cv cmo hc
  have hcv : valueOf (childResult board p m d mv) = cv := by
    rw [childResult_exact _ _ _ _ _ (by omega) (by omega), hc]
    rfl
  rw [hcv] at hres
  rw [← hres.1]
  have hk : (getValidMoves board).length - 1
      = (getValidMoves (setCell board mv.y mv.x (some p))).length := by omega
  rw [hk]
  exact hleaf

/-- Claim C5: on a board with no winner where some empty cell completes a line for
`p`, at a depth `d` with `0 ≤ d ≤ 90`, `minimax(board, p, true, d)` returns the
value `100 - (d + 1)` and a move whose cell, once it holds `p`, makes
`getWinner` return `p`. -/
theorem minimax_takes_win (board : Board) (p : Nat) (d : Int) (hb : IsBoard board)
    (hp : p ≤ 1) (hw : getWinner board = some (-1)) (hd0 : 0 ≤ d) (hd : d ≤ 90)
    (hwin : ∃ mv ∈ getValidMoves board,
      getWinner (setCell board mv.y mv.x (some p)) = some (p : Int)) :
    ∃ mv, minimax board p true d = some ⟨some (100 - (d + 1)), some mv⟩ ∧
      mv ∈ getValidMoves board ∧
      getWinner (setCell board mv.y mv.x (some p)) = some (p : Int) := by
  obtain ⟨mv0, hmv0, hwin0⟩ := hwin
  have hne : getValidMoves board ≠ [] := List.ne_nil_of_mem hmv0
  obtain ⟨i, mv, hres, hi, _, hall⟩ := minimax_nonterminal board p true d hw hne
  have hmem : mv ∈ getValidMoves board := List.getElem?_mem hi
  have hn9 := length_getValidMoves_le board
  have hpne : (p : Int) ≠ (nextPlayer p : Int) := by
    have := nextPlayer_ne p
    omega
  -- the value of the winning move
  have hv0 : valueOf (childResult board p true d mv0) = 100 - (d + 1) := by
    rw [childResult_exact _ _ _ _ _ (by omega) (by omega),
      minimax_winner _ _ _ _ (by rw [hwin0]; simp), hwin0,
      jsSub_exact (by omega) (by omega)]
    simp [valueOf, hpne]
  -- every child value is at most that
  have hle : ∀ u ∈ getValidMoves board,
      valueOf (childResult board p true d u) ≤ 100 - (d + 1) := by
    intro u hu
    have hl := length_getValidMoves_setCell board u p hu
    obtain ⟨cv, cmo, hc⟩ := minimax_value _ (setCell board u.y u.x (some p))
      (nextPlayer p) (!true) (d + 1) (Nat.lt_succ_self _)
    have hleaf := minimax_leafValue _ _ _ _ _ (Nat.lt_succ_self _) (by omega) (by omega)
      cv cmo hc
    rw [childResult_exact _ _ _ _ _ (by omega) (by omega), hc]
    simp only [valueOf]
    rcases hleaf with h0 | ⟨e, h1, h2, h3⟩
    · omega
    · rcases h3 with h3 | h3 <;> omega
  have hge : valueOf (childResult board p true d mv0)
      ≤ valueOf (childResult board p true d mv) := by
    have := hall mv0 hmv0
    simpa [Better] using this
  have hval : valueOf (childResult board p true d mv) = 100 - (d + 1) :=
    le_antisymm (hle mv hmem) (hv0 ▸ hge)
  refine ⟨mv, by rw [hres, hval], hmem, ?_⟩
  -- the chosen move completes a line for `p`
  have hcb : IsBoard (setCell board mv.y mv.x (some p)) := isBoard_setCell hb hp hmem
  have hl := length_getValidMoves_setCell board mv p hmem
  rw [childResult_exact _ _ _ _ _ (by omega) (by omega)] at hval
  by_cases hcw : getWinner (setCell board mv.y mv.x (some p)) = some (-1)
  · exfalso
    by_cases hcm : getValidMoves (setCell board mv.y mv.x (some p)) = []
    · rw [minimax_draw _ _ _ _ hcw hcm] at hval
      simp only [valueOf] at hval
      omega
    · obtain ⟨cv, cmo, hc⟩ := minimax_value _ (setCell board mv.y mv.x (some p))
        (nextPlayer p) (!true) (d + 1) (Nat.lt_succ_self _)
      have hleaf := minimax_leafValue_step _ _ _ _ (by omega) (by omega) hcw hcm cv cmo hc
      rw [hc] at hval
      simp only [valueOf] at hval
      rcases hleaf with h0 | ⟨e, h1, h2, h3⟩
      · omega
      · rcases h3 with h3 | h3 <;> omega
  · rw [minimax_winner _ _ _ _ hcw, jsSub_exact (by omega) (by omega),
      jsAdd_exact (by omega) (by omega)] at hval
    simp only [valueOf, Bool.not_true, Bool.false_and, Bool.not_false, Bool.true_and,
      Bool.false_or] at hval
    have hnp := nextPlayer_ne p
    have hnl := nextPlayer_le p
    rcases getWinner_values hcb with h | h | h
    · exact absurd h hcw
    · rw [h] at hval ⊢
      split at hval
      · rename_i hcond
        simp at hcond
        congr 1
        omega
      · omega
    · rw [h] at hval ⊢
      split at hval
      · rename_i hcond
        simp at hcond
        congr 1
        omega
      · omega

theorem minimax_takes_win_witness :
    IsBoard [[some 1, some 1, none], [some 0, some 0, none], [none, none, none]] ∧
    ∃ mv, minimax [[some 1, some 1, none], [some 0, some 0, none], [none, none, none]] 0 true 0
        = some ⟨some (100 - (0 + 1)), some mv⟩ ∧
      mv ∈ getValidMoves [[some 1, some 1, none], [some 0, some 0, none], [none, none, none]] ∧
      getWinner (setCell [[some 1, some 1, none], [some 0, some 0, none], [none, none, none]]
        mv.y mv.x (some 0)) = some ((0 : Nat) : Int) :=
  ⟨by decide,
    minimax_takes_win [[some 1, some 1, none], [some 0, some 0, none], [none, none, none]] 0 0
      (by decide) (by decide) (by decide) (by decide) (by decide)
      ⟨⟨2, 1⟩, by decide, by decide⟩⟩

/-! ## The sign of the value of `minimax` -/

theorem mem_getValidMoves_flat (a b c d e f g h i : Cell) (u : Move) :
    u ∈ getValidMoves [[a, b, c], [d, e, f], [g, h, i]] ↔
      (a = none ∧ u = ⟨0, 0⟩) ∨ (b = none ∧ u = ⟨1, 0⟩) ∨ (c = none ∧ u = ⟨2, 0⟩) ∨
      (d = none ∧ u = ⟨0, 1⟩) ∨ (e = none ∧ u = ⟨1, 1⟩) ∨ (f = none ∧ u = ⟨2, 1⟩) ∨
      (g = none ∧ u = ⟨0, 2⟩) ∨ (h = none ∧ u = ⟨1, 2⟩) ∨ (i = none ∧ u = ⟨2, 2⟩) := by
  have h00 : cellAt [[a, b, c], [d, e, f], [g, h, i]] 0 0 = some a := rfl
  have h01 : cellAt [[a, b, c], [d, e, f], [g, h, i]] 0 1 = some b := rfl
  have h02 : cellAt [[a, b, c], [d, e, f], [g, h, i]] 0 2 = some c := rfl
  have h10 : cellAt [[a, b, c], [d, e, f], [g, h, i]] 1 0 = some d := rfl
  have h11 : cellAt [[a, b, c], [d, e, f], [g, h, i]] 1 1 = some e := rfl
  have h12 : cellAt [[a, b, c], [d, e, f], [g, h, i]] 1 2 = some f := rfl
  have h20 : cellAt [[a, b, c], [d, e, f], [g, h, i]] 2 0 = some g := rfl
  have h21 : cellAt [[a, b, c], [d, e, f], [g, h, i]] 2 1 = some h := rfl
  have h22 : cellAt [[a, b, c], [d, e, f], [g, h, i]] 2 2 = some i := rfl
  simp only [getValidMoves_eq_append, emptyAt, h00, h01, h02, h10, h11, h12, h20, h21, h22,
    List.mem_append, Option.some.injEq, List.mem_ite_nil_right, List.mem_singleton, or_assoc]

theorem exists_mem_flat (a b c d e f g h i : Cell) (Q : Move → Prop) :
    (∃ u ∈ getValidMoves [[a, b, c], [d, e, f], [g, h, i]], Q u) ↔
      (a = none ∧ Q ⟨0, 0⟩) ∨ (b = none ∧ Q ⟨1, 0⟩) ∨ (c = none ∧ Q ⟨2, 0⟩) ∨
      (d = none ∧ Q ⟨0, 1⟩) ∨ (e = none ∧ Q ⟨1, 1⟩) ∨ (f = none ∧ Q ⟨2, 1⟩) ∨
      (g = none ∧ Q ⟨0, 2⟩) ∨ (h = none ∧ Q ⟨1, 2⟩) ∨ (i = none ∧ Q ⟨2, 2⟩) := by
  simp only [mem_getValidMoves_flat, or_and_right, exists_or, and_assoc, exists_eq_left,
    exists_and_left]

theorem forall_mem_flat (a b c d e f g h i : Cell) (Q : Move → Prop) :
    (∀ u ∈ getValidMoves [[a, b, c], [d, e, f], [g, h, i]], Q u) ↔
      (a = none → Q ⟨0, 0⟩) ∧ (b = none → Q ⟨1, 0⟩) ∧ (c = none → Q ⟨2, 0⟩) ∧
      (d = none → Q ⟨0, 1⟩) ∧ (e = none → Q ⟨1, 1⟩) ∧ (f = none → Q ⟨2, 1⟩) ∧
      (g = none → Q ⟨0, 2⟩) ∧ (h = none → Q ⟨1, 2⟩) ∧ (i = none → Q ⟨2, 2⟩) := by
  have key : ∀ (A : Prop) (k : Move), (∀ x : Move, A → x = k → Q x) ↔ (A → Q k) :=
    fun A k => ⟨fun h ha => h k ha rfl, fun h x ha hx => hx ▸ h ha⟩
  simp only [mem_getValidMoves_flat, or_imp, forall_and, and_imp, key]

theorem valueOf_nonterminal (board : Board) (p : Nat) (m : Bool) (d : Int)
    (hw : getWinner board = some (-1)) (hne : getValidMoves board ≠ []) :
    ∃ mv ∈ getValidMoves board,
      valueOf (minimax board p m d) = valueOf (childResult board p m d mv) ∧
      ∀ u ∈ getValidMoves board,
        ¬ Better m (valueOf (childResult board p m d mv)) (valueOf (childResult board p m d u)) := by
  obtain ⟨i, mv, hres, hi, _, hall⟩ := minimax_nonterminal board p m d hw hne
  exact ⟨mv, List.getElem?_mem hi, by rw [hres]; rfl, hall⟩

theorem minimax_sign_step (board : Board) (p : Nat) (m s : Bool) (d : Int)
    (hw : getWinner board = some (-1)) (hne : getValidMoves board ≠ []) :
    SignOk s (valueOf (minimax board p m d)) ↔
      if m = s then ∃ u ∈ getValidMoves board, SignOk s (valueOf (childResult board p m d u))
      else ∀ u ∈ getValidMoves board, SignOk s (valueOf (childResult board p m d u)) := by
  obtain ⟨mv, hmem, hv, hall⟩ := valueOf_nonterminal board p m d hw hne
  rw [hv]
  cases m <;> cases s <;> simp only [SignOk, Better, if_true, if_false, Bool.false_eq_true,
    reduceCtorEq, not_lt] at hall ⊢
  · exact ⟨fun h => ⟨mv, hmem, h⟩, fun ⟨u, hu, h⟩ => le_trans (hall u hu) h⟩
  · exact ⟨fun h u hu => le_trans h (hall u hu), fun h => h mv hmem⟩
  · exact ⟨fun h u hu => le_trans (hall u hu) h, fun h => h mv hmem⟩
  · exact ⟨fun h => ⟨mv, hmem, h⟩, fun ⟨u, hu, h⟩ => le_trans h (hall u hu)⟩

theorem nextPlayer_nextPlayer {p : Nat} (hp : p ≤ 1) : nextPlayer (nextPlayer p) = p := by
  interval_cases p <;> rfl

theorem isSome_or_eq_true (x : Cell) (X : Bool) :
    (x.isSome || X) = true ↔ (x = none → X = true) := by
  cases x <;> simp

theorem getValidMoves_flat_eq_nil (a b c d e f g h i : Cell) :
    getValidMoves [[a, b, c], [d, e, f], [g, h, i]] = [] ↔
      a.isSome = true ∧ b.isSome = true ∧ c.isSome = true ∧ d.isSome = true ∧
      e.isSome = true ∧ f.isSome = true ∧ g.isSome = true ∧ h.isSome = true ∧
      i.isSome = true := by
  rw [List.eq_nil_iff_forall_not_mem]
  have hQ := forall_mem_flat a b c d e f g h i (fun _ => False)
  simp only [imp_false] at hQ
  have hmem : (∀ u, u ∉ getValidMoves [[a, b, c], [d, e, f], [g, h, i]]) ↔
      ∀ u ∈ getValidMoves [[a, b, c], [d, e, f], [g, h, i]], False := Iff.rfl
  rw [hmem, hQ]
  simp only [Option.isSome_iff_ne_none, ne_eq]

theorem signFlat_spec (fuel : Nat) : ∀ (a b c d e f g h i : Cell) (p : Nat) (m s : Bool)
    (dp : Int), IsValidCell a → IsValidCell b → IsValidCell c → IsValidCell d →
    IsValidCell e → IsValidCell f → IsValidCell g → IsValidCell h → IsValidCell i →
    p ≤ 1 → (getValidMoves [[a, b, c], [d, e, f], [g, h, i]]).length < fuel → 0 ≤ dp →
    dp + (getValidMoves [[a, b, c], [d, e, f], [g, h, i]]).length ≤ 99 →
    (SignOk s (valueOf (minimax [[a, b, c], [d, e, f], [g, h, i]] p m dp)) ↔
      signFlat fuel a b c d e f g h i p (nextPlayer p) m (!m) s = true) := by
  induction fuel with
  | zero => intro _ _ _ _ _ _ _ _ _ _ _ _ _ _ _ _ _ _ _ _ _ _ _ h; omega
  | succ fuel ih =>
    intro a b c d e f g h i p m s dp ha hb hc hd he hf hg hh hi hp hlen hd0 hd99
    have hflat := getWinner_flat ha hb hc hd he hf hg hh hi
    have hps := isValidCell_some hp
    rw [signFlat]
    cases hwf : winnerFlat a b c d e f g h i with
    | some w =>
      rw [hwf] at hflat
      simp only [] at hflat
      rw [minimax_winner _ _ _ _ (by rw [hflat]; simp), hflat,
        jsSub_exact (by omega) (by omega), jsAdd_exact (by omega) (by omega)]
      have hcast : ((w : Int) = (p : Int)) ↔ w = p := Int.ofNat_inj
      by_cases hwp : w = p <;> cases m <;> cases s <;>
        simp [SignOk, valueOf, hwp, hcast] <;> omega
    | none =>
      rw [hwf] at hflat
      simp only [] at hflat
      by_cases hne : getValidMoves [[a, b, c], [d, e, f], [g, h, i]] = []
      · rw [minimax_draw _ _ _ _ hflat hne]
        have hfull := (getValidMoves_flat_eq_nil a b c d e f g h i).1 hne
        obtain ⟨h1, h2, h3, h4, h5, h6, h7, h8, h9⟩ := hfull
        have hok : SignOk s (valueOf (some (⟨some 0, none⟩ : Result))) := by
          cases s <;> simp [SignOk, valueOf]
        simp only [hok, true_iff, h1, h2, h3, h4, h5, h6, h7, h8, h9, Bool.true_or,
          Bool.and_self, Bool.or_true, ite_self]
      · rw [minimax_sign_step _ p m s dp hflat hne]
        have hk0 : a = none →
            (SignOk s (valueOf (childResult [[a, b, c], [d, e, f], [g, h, i]] p m dp ⟨0, 0⟩)) ↔
              signFlat fuel (some p) b c d e f g h i (nextPlayer p) p (!m) m s = true) := by
          intro hx
          have hmem : (⟨0, 0⟩ : Move) ∈ getValidMoves [[a, b, c], [d, e, f], [g, h, i]] :=
            (mem_getValidMoves_flat a b c d e f g h i _).2 (Or.inl ⟨hx, rfl⟩)
          have hl : (getValidMoves [[(some p), b, c], [d, e, f], [g, h, i]]).length + 1
              = (getValidMoves [[a, b, c], [d, e, f], [g, h, i]]).length :=
            length_getValidMoves_setCell [[a, b, c], [d, e, f], [g, h, i]] ⟨0, 0⟩ p hmem
          have hrec := ih (some p) b c d e f g h i (nextPlayer p) (!m) s (dp + 1)
            hps hb hc hd he hf hg hh hi (nextPlayer_le p) (by omega) (by omega) (by omega)
          rw [nextPlayer_nextPlayer hp, Bool.not_not] at hrec
          rw [childResult_exact _ _ _ _ _ (by omega) (by omega)]
          exact hrec
        have hk1 : b = none →
            (SignOk s (valueOf (childResult [[a, b, c], [d, e, f], [g, h, i]] p m dp ⟨1, 0⟩)) ↔
              signFlat fuel a (some p) c d e f g h i (nextPlayer p) p (!m) m s = true) := by
          intro hx
          have hmem : (⟨1, 0⟩ : Move) ∈ getValidMoves [[a, b, c], [d, e, f], [g, h, i]] :=
            (mem_getValidMoves_flat a b c d e f g h i _).2 (Or.inr (Or.inl ⟨hx, rfl⟩))
          have hl : (getValidMoves [[a, (some p), c], [d, e, f], [g, h, i]]).length + 1
              = (getValidMoves [[a, b, c], [d, e, f], [g, h, i]]).length :=
            length_getValidMoves_setCell [[a, b, c], [d, e, f], [g, h, i]] ⟨1, 0⟩ p hmem
          have hrec := ih a (some p) c d e f g h i (nextPlayer p) (!m) s (dp + 1)
            ha hps hc hd he hf hg hh hi (nextPlayer_le p) (by omega) (by omega) (by omega)
          rw [nextPlayer_nextPlayer hp, Bool.not_not] at hrec
          rw [childResult_exact _ _ _ _ _ (by omega) (by omega)]
          exact hrec
        have hk2 : c = none →
            (SignOk s (valueOf (childResult [[a, b, c], [d, e, f], [g, h, i]] p m dp ⟨2, 0⟩)) ↔
              signFlat fuel a b (some p) d e f g h i (nextPlayer p) p (!m) m s = true) := by
          intro hx
          have hmem : (⟨2, 0⟩ : Move) ∈ getValidMoves [[a, b, c], [d, e, f], [g, h, i]] :=
            (mem_getValidMoves_flat a b c d e f g h i _).2 (Or.inr (Or.inr (Or.inl ⟨hx, rfl⟩)))
          have hl : (getValidMoves [[a, b, (some p)], [d, e, f], [g, h, i]]).length + 1
              = (getValidMoves [[a, b, c], [d, e, f], [g, h, i]]).length :=
            length_getValidMoves_setCell [[a, b, c], [d, e, f], [g, h, i]] ⟨2, 0⟩ p hmem
          have hrec := ih a b (some p) d e f g h i (nextPlayer p) (!m) s (dp + 1)
            ha hb hps hd he hf hg hh hi (nextPlayer_le p) (by omega) (by omega) (by omega)
          rw [nextPlayer_nextPlayer hp, Bool.not_not] at hrec
          rw [childResult_exact _ _ _ _ _ (by omega) (by omega)]
          exact hrec
        have hk3 : d = none →
            (SignOk s (valueOf (childResult [[a, b, c], [d, e, f], [g, h, i]] p m dp ⟨0, 1⟩)) ↔
              signFlat fuel a b c (some p) e f g h i (nextPlayer p) p (!m) m s = true) := by
          intro hx
          have hmem : (⟨0, 1⟩ : Move) ∈ getValidMoves [[a, b, c], [d, e, f], [g, h, i]] :=
            (mem_getValidMoves_flat a b c d e f g h i _).2 (Or.inr (Or.inr (Or.inr (Or.inl ⟨hx, rfl⟩))))
          have hl : (getValidMoves [[a, b, c], [(some p), e, f], [g, h, i]]).length + 1
              = (getValidMoves [[a, b, c], [d, e, f], [g, h, i]]).length :=
            length_getValidMoves_setCell [[a, b, c], [d, e, f], [g, h, i]] ⟨0, 1⟩ p hmem
          have hrec := ih a b c (some p) e f g h i (nextPlayer p) (!m) s (dp + 1)
            ha hb hc hps he hf hg hh hi (nextPlayer_le p) (by omega) (by omega) (by omega)
          rw [nextPlayer_nextPlayer hp, Bool.not_not] at hrec
          rw [childResult_exact _ _ _ _ _ (by omega) (by omega)]
          exact hrec
        have hk4 : e = none →
            (SignOk s (valueOf (childResult [[a, b, c], [d, e, f], [g, h, i]] p m dp ⟨1, 1⟩)) ↔
              signFlat fuel a b c d (some p) f g h i (nextPlayer p) p (!m) m s = true) := by
          intro hx
          have hmem : (⟨1, 1⟩ : Move) ∈ getValidMoves [[a, b, c], [d, e, f], [g, h, i]] :=
            (mem_getValidMoves_flat a b c d e f g h i _).2 (Or.inr (Or.inr (Or.inr (Or.inr (Or.inl ⟨hx, rfl⟩)))))
          have hl : (getValidMoves [[a, b, c], [d, (some p), f], [g, h, i]]).length + 1
              = (getValidMoves [[a, b, c], [d, e, f], [g, h, i]]).length :=
            length_getValidMoves_setCell [[a, b, c], [d, e, f], [g, h, i]] ⟨1, 1⟩ p hmem
          have hrec := ih a b c d (some p) f g h i (nextPlayer p) (!m) s (dp + 1)
            ha hb hc hd hps hf hg hh hi (nextPlayer_le p) (by omega) (by omega) (by omega)
          rw [nextPlayer_nextPlayer hp, Bool.not_not] at hrec
          rw [childResult_exact _ _ _ _ _ (by omega) (by omega)]
          exact hrec
        have hk5 : f = none →
            (SignOk s (valueOf (childResult [[a, b, c], [d, e, f], [g, h, i]] p m dp ⟨2, 1⟩)) ↔
              signFlat fuel a b c d e (some p) g h i (nextPlayer p) p (!m) m s = true) := by
          intro hx
          have hmem : (⟨2, 1⟩ : Move) ∈ getValidMoves [[a, b, c], [d, e, f], [g, h, i]] :=
            (mem_getValidMoves_flat a b c d e f g h i _).2 (Or.inr (Or.inr (Or.inr (Or.inr (Or.inr (Or.inl ⟨hx, rfl⟩))))))
          have hl : (getValidMoves [[a, b, c], [d, e, (some p)], [g, h, i]]).length + 1
              = (getValidMoves [[a, b, c], [d, e, f], [g, h, i]]).length :=
            length_getValidMoves_setCell [[a, b, c], [d, e, f], [g, h, i]] ⟨2, 1⟩ p hmem
          have hrec := ih a b c d e (some p) g h i (nextPlayer p) (!m) s (dp + 1)
            ha hb hc hd he hps hg hh hi (nextPlayer_le p) (by omega) (by omega) (by omega)
          rw [nextPlayer_nextPlayer hp, Bool.not_not] at hrec
          rw [childResult_exact _ _ _ _ _ (by omega) (by omega)]
          exact hrec
        have hk6 : g = none →
            (SignOk s (valueOf (childResult [[a, b, c], [d, e, f], [g, h, i]] p m dp ⟨0, 2⟩)) ↔
              signFlat fuel a b c d e f (some p) h i (nextPlayer p) p (!m) m s = true) := by
          intro hx
          have hmem : (⟨0, 2⟩ : Move) ∈ getValidMoves [[a, b, c], [d, e, f], [g, h, i]] :=
            (mem_getValidMoves_flat a b c d e f g h i _).2 (Or.inr (Or.inr (Or.inr (Or.inr (Or.inr (Or.inr (Or.inl ⟨hx, rfl⟩)))))))
          have hl : (getValidMoves [[a, b, c], [d, e, f], [(some p), h, i]]).length + 1
              = (getValidMoves [[a, b, c], [d, e, f], [g, h, i]]).length :=
            length_getValidMoves_setCell [[a, b, c], [d, e, f], [g, h, i]] ⟨0, 2⟩ p hmem
          have hrec := ih a b c d e f (some p) h i (nextPlayer p) (!m) s (dp + 1)
            ha hb hc hd he hf hps hh hi (nextPlayer_le p) (by omega) (by omega) (by omega)
          rw [nextPlayer_nextPlayer hp, Bool.not_not] at hrec
          rw [childResult_exact _ _ _ _ _ (by omega) (by omega)]
          exact hrec
        have hk7 : h = none →
            (SignOk s (valueOf (childResult [[a, b, c], [d, e, f], [g, h, i]] p m dp ⟨1, 2⟩)) ↔
              signFlat fuel a b c d e f g (some p) i (nextPlayer p) p (!m) m s = true) := by
          intro hx
          have hmem : (⟨1, 2⟩ : Move) ∈ getValidMoves [[a, b, c], [d, e, f], [g, h, i]] :=
            (mem_getValidMoves_flat a b c d e f g h i _).2 (Or.inr (Or.inr (Or.inr (Or.inr (Or.inr (Or.inr (Or.inr (Or.inl ⟨hx, rfl⟩))))))))
          have hl : (getValidMoves [[a, b, c], [d, e, f], [g, (some p), i]]).length + 1
              = (getValidMoves [[a, b, c], [d, e, f], [g, h, i]]).length :=
            length_getValidMoves_setCell [[a, b, c], [d, e, f], [g, h, i]] ⟨1, 2⟩ p hmem
          have hrec := ih a b c d e f g (some p) i (nextPlayer p) (!m) s (dp + 1)
            ha hb hc hd he hf hg hps hi (nextPlayer_le p) (by omega) (by omega) (by omega)
          rw [nextPlayer_nextPlayer hp, Bool.not_not] at hrec
          rw [childResult_exact _ _ _ _ _ (by omega) (by omega)]
          exact hrec
        have hk8 : i = none →
            (SignOk s (valueOf (childResult [[a, b, c], [d, e, f], [g, h, i]] p m dp ⟨2, 2⟩)) ↔
              signFlat fuel a b c d e f g h (some p) (nextPlayer p) p (!m) m s = true) := by
          intro hx
          have hmem : (⟨2, 2⟩ : Move) ∈ getValidMoves [[a, b, c], [d, e, f], [g, h, i]] :=
            (mem_getValidMoves_flat a b c d e f g h i _).2 (Or.inr (Or.inr (Or.inr (Or.inr (Or.inr (Or.inr (Or.inr (Or.inr (⟨hx, rfl⟩)))))))))
          have hl : (getValidMoves [[a, b, c], [d, e, f], [g, h, (some p)]]).length + 1
              = (getValidMoves [[a, b, c], [d, e, f], [g, h, i]]).length :=
            length_getValidMoves_setCell [[a, b, c], [d, e, f], [g, h, i]] ⟨2, 2⟩ p hmem
          have hrec := ih a b c d e f g h (some p) (nextPlayer p) (!m) s (dp + 1)
            ha hb hc hd he hf hg hh hps (nextPlayer_le p) (by omega) (by omega) (by omega)
          rw [nextPlayer_nextPlayer hp, Bool.not_not] at hrec
          rw [childResult_exact _ _ _ _ _ (by omega) (by omega)]
          exact hrec
        by_cases hms : m = s
        · have hfull : ¬ (a.isSome = true ∧ b.isSome = true ∧ c.isSome = true ∧
              d.isSome = true ∧ e.isSome = true ∧ f.isSome = true ∧ g.isSome = true ∧
              h.isSome = true ∧ i.isSome = true) :=
            fun hf => hne ((getValidMoves_flat_eq_nil a b c d e f g h i).2 hf)
          rw [if_pos hms, if_pos (by simpa using hms), exists_mem_flat]
          simp only [Bool.or_eq_true, Bool.and_eq_true, Option.isNone_iff_eq_none, and_assoc,
            hfull, or_false, or_assoc]
          exact or_congr (and_congr_right hk0) (or_congr (and_congr_right hk1)
            (or_congr (and_congr_right hk2) (or_congr (and_congr_right hk3)
            (or_congr (and_congr_right hk4) (or_congr (and_congr_right hk5)
            (or_congr (and_congr_right hk6) (or_congr (and_congr_right hk7)
            (and_congr_right hk8))))))))
        · rw [if_neg hms, if_neg (by simpa using hms), forall_mem_flat]
          simp only [Bool.and_eq_true, isSome_or_eq_true, and_assoc]
          exact and_congr (imp_congr_right hk0) (and_congr (imp_congr_right hk1)
            (and_congr (imp_congr_right hk2) (and_congr (imp_congr_right hk3)
            (and_congr (imp_congr_right hk4) (and_congr (imp_congr_right hk5)
            (and_congr (imp_congr_right hk6) (and_congr (imp_congr_right hk7)
            (imp_congr_right hk8))))))))

theorem sign_depth_independent (board : Board) (hb : IsBoard board) (p : Nat) (hp : p ≤ 1)
    (m s : Bool) (d1 d2 : Int) (h1 : 0 ≤ d1) (h1b : d1 ≤ 90) (h2 : 0 ≤ d2) (h2b : d2 ≤ 90) :
    SignOk s (valueOf (minimax board p m d1)) ↔ SignOk s (valueOf (minimax board p m d2)) := by
  obtain ⟨a, b, c, d, e, f, g, h, i, rfl, ha, hb, hc, hd, he, hf, hg, hh, hi⟩ := isBoard_exists_cells hb
  have hlen := length_getValidMoves_le [[a, b, c], [d, e, f], [g, h, i]]
  rw [signFlat_spec 10 a b c d e f g h i p m s d1 ha hb hc hd he hf hg hh hi hp (by omega) h1
      (by omega),
    signFlat_spec 10 a b c d e f g h i p m s d2 ha hb hc hd he hf hg hh hi hp (by omega) h2
      (by omega)]

theorem generateBoard_eq :
    generateBoard = [[none, none, none], [none, none, none], [none, none, none]] := by decide

theorem signFlat_empty_0_ge :
    signFlat 10 none none none none none none none none none 0 1 true false true = true := by
  decide!

theorem signFlat_empty_0_le :
    signFlat 10 none none none none none none none none none 0 1 true false false = true := by
  decide!

theorem signFlat_empty_1_ge :
    signFlat 10 none none none none none none none none none 1 0 true false true = true := by
  decide!

theorem signFlat_empty_1_le :
    signFlat 10 none none none none none none none none none 1 0 true false false = true := by
  decide!

theorem valueOf_generateBoard (p : Nat) (hp : p ≤ 1)
    (hge : signFlat 10 none none none none none none none none none p (nextPlayer p)
      true (!true) true = true)
    (hle : signFlat 10 none none none none none none none none none p (nextPlayer p)
      true (!true) false = true) :
    ∃ mo, minimax generateBoard p true 0 = some ⟨some 0, mo⟩ := by
  obtain ⟨v, mo, hres⟩ := minimax_value _ generateBoard p true 0 (Nat.lt_succ_self _)
  have hv : valueOf (minimax generateBoard p true 0) = v := by rw [hres]; rfl
  have hn : IsValidCell none := Or.inl rfl
  have hlen : (getValidMoves [[none, none, none], [none, none, none], [none, none, none]]).length
      = 9 := by decide
  have hge2 := (signFlat_spec 10 none none none none none none none none none p true true 0
    hn hn hn hn hn hn hn hn hn hp (by omega) (le_refl _) (by omega)).2 hge
  have hle2 := (signFlat_spec 10 none none none none none none none none none p true false 0
    hn hn hn hn hn hn hn hn hn hp (by omega) (le_refl _) (by omega)).2 hle
  rw [← generateBoard_eq, hv] at hge2 hle2
  simp only [SignOk, if_true, if_false, Bool.false_eq_true] at hge2 hle2
  have : v = 0 := le_antisymm hle2 hge2
  subst this
  exact ⟨mo, hres⟩

/-- Claim C6: from the empty board of `generateBoard()`, `minimax` called with the
defaults `maximizing = true` and `depth = 0` returns the value `0` for player `0`
and for player `1`: optimal play by both sides ends in a draw. -/
theorem minimax_generateBoard_draw :
    (∃ mo, minimax generateBoard 0 true 0 = some ⟨some 0, mo⟩) ∧
    (∃ mo, minimax generateBoard 1 true 0 = some ⟨some 0, mo⟩) :=
  ⟨valueOf_generateBoard 0 (by decide) signFlat_empty_0_ge signFlat_empty_0_le,
    valueOf_generateBoard 1 (by decide) signFlat_empty_1_ge signFlat_empty_1_le⟩

/-! ## Termination and the arguments of the recursive calls -/

theorem minimaxAux_eq_minimax (fuel : Nat) : ∀ (board : Board) (p : Nat) (m : Bool) (d : Int),
    (getValidMoves board).length < fuel → minimaxAux fuel board p m d = minimax board p m d := by
  induction fuel with
  | zero => intro _ _ _ _ h; omega
  | succ fuel ih =>
    intro board p m d hlen
    rw [minimax_eq, minimaxAux]
    split
    · rfl
    · split
      · rfl
      · apply searchLoop_congr
        intro mv hmv
        have hl := length_getValidMoves_setCell board mv p hmv
        exact ih _ _ _ _ (by simp only [childCall]; omega)

/-- Claim C9: `minimax` terminates on every 3x3 board: each recursive call is made on
a board with exactly one empty cell fewer, a board has at most `boardSize²`
empty cells, and a recursion depth equal to the number of empty cells of the
input board is enough to return a result (more fuel gives the same result). -/
theorem minimax_terminates (board : Board) (p : Nat) (m : Bool) (d : Int)
    (_h : Is3x3 board) :
    (∃ r, minimaxAux ((getValidMoves board).length + 1) board p m d = some r) ∧
    (∀ mv ∈ getValidMoves board,
      (getValidMoves (childCall board p m d mv).board).length + 1
        = (getValidMoves board).length) ∧
    (getValidMoves board).length ≤ boardSize * boardSize ∧
    (∀ fuel, (getValidMoves board).length < fuel →
      minimaxAux fuel board p m d
        = minimaxAux ((getValidMoves board).length + 1) board p m d) := by
  refine ⟨?_, ?_, length_getValidMoves_le board, ?_⟩
  · obtain ⟨v, mo, hres⟩ := minimax_value _ board p m d (Nat.lt_succ_self _)
    exact ⟨_, hres⟩
  · intro mv hmv
    exact length_getValidMoves_setCell board mv p hmv
  · intro fuel hfuel
    exact minimaxAux_eq_minimax fuel board p m d hfuel

theorem minimax_terminates_witness :
    Is3x3 [[some 1, some 1, none], [some 0, some 0, none], [some 1, some 0, some 1]] ∧
    ∃ r, minimaxAux
      ((getValidMoves
        [[some 1, some 1, none], [some 0, some 0, none], [some 1, some 0, some 1]]).length + 1)
      [[some 1, some 1, none], [some 0, some 0, none], [some 1, some 0, some 1]] 0 true 0
        = some r :=
  ⟨by decide,
    (minimax_terminates [[some 1, some 1, none], [some 0, some 0, none], [some 1, some 0, some 1]]
      0 true 0 (by decide)).1⟩

/-! ## The player argument, the flag and the perspective player -/

theorem perspective_child {p : Nat} (hp : p ≤ 1) (m : Bool) :
    perspective (nextPlayer p) (!m) = perspective p m := by
  cases m <;> simp [perspective, nextPlayer_nextPlayer hp]

theorem minimaxCalls_invariant (fuel : Nat) : ∀ (board : Board) (p : Nat) (m : Bool) (d : Int),
    p ≤ 1 → ∀ c ∈ minimaxCalls fuel board p m d,
      perspective c.player c.maximizing = perspective p m ∧ c.player ≤ 1 ∧
      (c.player = p ↔ c.maximizing = m) := by
  induction fuel with
  | zero => intro _ _ _ _ _ c hc; simp [minimaxCalls] at hc
  | succ fuel ih =>
    intro board p m d hp c hc
    rw [minimaxCalls, List.mem_cons] at hc
    rcases hc with rfl | hc
    · exact ⟨rfl, hp, by simp⟩
    · split at hc
      · simp at hc
      · split at hc
        · simp at hc
        · rw [List.mem_flatMap] at hc
          obtain ⟨mv, _, hc⟩ := hc
          obtain ⟨h1, h2, h3⟩ := ih _ _ _ _ (nextPlayer_le p) c hc
          simp only [childCall] at h1 h2 h3
          refine ⟨by rw [h1, perspective_child hp], h2, ?_⟩
          have hne := nextPlayer_ne p
          have hle := nextPlayer_le p
          constructor
          · intro hcp
            have : ¬ c.player = nextPlayer p := by omega
            have h4 : ¬ c.maximizing = !m := fun e => this (h3.2 e)
            revert h4
            cases c.maximizing <;> cases m <;> simp
          · intro hcm
            have h4 : ¬ c.maximizing = !m := by rw [hcm]; cases m <;> simp
            have : ¬ c.player = nextPlayer p := fun e => h4 (h3.1 e)
            omega

theorem improves_neg (m : Bool) (a b : Option Int) :
    improves (!m) (a.map fun v => -v) (b.map fun v => -v) = improves m a b := by
  cases a <;> cases b <;> cases m <;> simp [improves, toNumber]

theorem searchLoop_negate (m : Bool) (child child2 : Move → Option Result) (ms : List Move)
    (h : ∀ mv ∈ ms, child2 mv = (child mv).map negate) (best : Result) :
    searchLoop (!m) child2 ms (negate best) = (searchLoop m child ms best).map negate := by
  induction ms generalizing best with
  | nil => rfl
  | cons a rest ih =>
    simp only [searchLoop]
    rw [h a (List.mem_cons_self _ _)]
    cases hc : child a with
    | none => rfl
    | some r =>
      simp only [Option.map_some']
      have hrest := fun mv hmv => h mv (List.mem_cons_of_mem a hmv)
      have himp : improves (!m) (negate best).value (negate r).value
          = improves m best.value r.value := improves_neg m best.value r.value
      rw [himp]
      by_cases hi : improves m best.value r.value = true
      · rw [if_pos hi, if_pos hi]
        exact ih hrest ⟨r.value, some a⟩
      · rw [if_neg hi, if_neg hi]
        exact ih hrest best

theorem jsSub_neg (d : Int) : jsSub 100 d = -jsAdd (-100) d := by
  unfold jsSub jsAdd
  rw [← toDouble_neg]
  congr 1
  omega

theorem minimax_negate (fuel : Nat) : ∀ (board : Board) (p : Nat) (m : Bool) (d : Int),
    (getValidMoves board).length < fuel →
    minimax board p (!m) d = (minimax board p m d).map negate := by
  induction fuel with
  | zero => intro _ _ _ _ h; omega
  | succ fuel ih =>
    intro board p m d hlen
    rw [minimax_eq board p (!m) d, minimax_eq board p m d]
    split
    · have hs : jsSub 100 d = -jsAdd (-100) d := jsSub_neg d
      cases m <;> by_cases hwp : getWinner board = some (p : Int) <;>
        simp [hwp, negate, hs]
    · split
      · simp [negate]
      · have hneg : (⟨none, none⟩ : Result) = negate ⟨none, none⟩ := rfl
        rw [hneg]
        apply searchLoop_negate
        intro mv hmv
        have hl := length_getValidMoves_setCell board mv p hmv
        rw [childResult_eq, childResult_eq, Bool.not_not]
        have := ih (setCell board mv.y mv.x (some p)) (nextPlayer p) (!m) (jsAdd d 1)
          (by omega)
        rw [Bool.not_not] at this
        rw [this]

/-- Claim C7, as stated, fails: on the empty board the call with `player = 0` and
`maximizing = false` writes `0` (its own `player` argument, not the opponent `1`)
into the chosen cell of the child board, and makes the recursive call with the
player argument `1`, not `0`. -/
theorem childCall_not_fixed_player :
    cellAt (childCall generateBoard 0 false 0 ⟨0, 0⟩).board 0 0 = some (some 0) ∧
    cellAt (childCall generateBoard 0 false 0 ⟨0, 0⟩).board 0 0 ≠ some (some (nextPlayer 0)) ∧
    (childCall generateBoard 0 false 0 ⟨0, 0⟩).player = 1 ∧
    (childCall generateBoard 0 false 0 ⟨0, 0⟩).player ≠ 0 := by
  decide

/-- Claim C7, amended: the `player` argument is the side to move at the node, and
the player the value is computed for is `player` when `maximizing` is true and
the other player when it is false. Through the whole recursion that perspective
player stays the same while the player argument alternates (it equals the
outer `p` exactly in the calls whose flag equals the outer flag); a winner is
scored `100 - depth` exactly when it is the perspective player; negating the
flag of a call negates the value and leaves the move unchanged, so the flag
does not select who moves. On a non-terminal board the result is that of the
loop over the recursive calls, and each such call is made on the board with `p`
written into the chosen cell (every other cell unchanged), whatever the flag,
with the other player as player argument, the flag negated and `depth + 1`. -/
theorem minimax_alternates_player (board : Board) (p : Nat) (m : Bool) (d : Int)
    (hb : IsBoard board) (hp : p ≤ 1) (_hd : IsDouble d) :
    (∀ c ∈ minimaxCalls ((getValidMoves board).length + 1) board p m d,
      perspective c.player c.maximizing = perspective p m ∧ c.player ≤ 1 ∧
      (c.player = p ↔ c.maximizing = m)) ∧
    (∀ w : Nat, getWinner board = some (w : Int) →
      minimax board p m d =
        some ⟨some (if w = perspective p m then jsSub 100 d else jsAdd (-100) d), none⟩) ∧
    minimax board p (!m) d = (minimax board p m d).map negate ∧
    (getWinner board = some (-1) → getValidMoves board ≠ [] →
      minimax board p m d =
        searchLoop m
          (fun mv => minimax (childCall board p m d mv).board (childCall board p m d mv).player
            (childCall board p m d mv).maximizing (childCall board p m d mv).depth)
          (getValidMoves board) ⟨none, none⟩ ∧
      ∀ mv ∈ getValidMoves board,
        childCall board p m d mv ∈ minimaxCalls ((getValidMoves board).length + 1) board p m d ∧
        cellAt (childCall board p m d mv).board mv.y mv.x = some (some p) ∧
        (∀ i j, ¬ (i = mv.y ∧ j = mv.x) →
          cellAt (childCall board p m d mv).board i j = cellAt board i j) ∧
        (childCall board p m d mv).player = nextPlayer p ∧
        (childCall board p m d mv).player ≠ p ∧
        (childCall board p m d mv).player + p = 1 ∧
        (childCall board p m d mv).maximizing = (!m) ∧
        (childCall board p m d mv).depth = jsAdd d 1) := by
  refine ⟨minimaxCalls_invariant _ board p m d hp, ?_,
    minimax_negate _ board p m d (Nat.lt_succ_self _), ?_⟩
  · intro w hw
    have hw1 : getWinner board ≠ some (-1) := by rw [hw]; simp
    rw [minimax_winner board p m d hw1, hw]
    have hwv : w = 0 ∨ w = 1 := by
      rcases getWinner_values hb with h | h | h <;> rw [hw] at h <;>
        simp only [Option.some.injEq] at h <;> omega
    have hpv : p = 0 ∨ p = 1 := by omega
    rcases hwv with rfl | rfl <;> rcases hpv with rfl | rfl <;> cases m <;>
      simp [perspective, nextPlayer]
  · intro hw hne
    constructor
    · rw [minimax_eq, if_neg (by simp [hw]), if_neg (by simp [hne])]
      rfl
    · intro mv hmv
      have hc := ((mem_getValidMoves board mv).1 hmv).2
      refine ⟨?_, ?_, ?_, rfl, nextPlayer_ne p, ?_, rfl, rfl⟩
      · obtain ⟨n, hn⟩ : ∃ n, (getValidMoves board).length = n + 1 := by
          cases hl : getValidMoves board with
          | nil => exact absurd hl hne
          | cons a rest => exact ⟨rest.length, rfl⟩
        rw [hn, minimaxCalls, if_neg (by simp [hw]), if_neg (by simp [hne])]
        refine List.mem_cons_of_mem _ (List.mem_flatMap.2 ⟨mv, hmv, ?_⟩)
        rw [minimaxCalls]
        exact List.mem_cons_self _ _
      · simp only [childCall]
        rw [cellAt_setCell board mv.y mv.x (some p) none hc]
        simp
      · intro i j hij
        simp only [childCall]
        rw [cellAt_setCell board mv.y mv.x (some p) none hc, if_neg hij]
      · simp only [childCall, nextPlayer]
        interval_cases p <;> simp

theorem minimax_alternates_player_witness :
    IsBoard [[some 1, some 1, none], [some 0, some 0, none], [some 1, some 0, some 1]] ∧
    IsDouble 4 ∧
    (minimax [[some 1, some 1, none], [some 0, some 0, none], [some 1, some 0, some 1]] 1
        (!false) 4
      = (minimax [[some 1, some 1, none], [some 0, some 0, none], [some 1, some 0, some 1]] 1
          false 4).map negate) ∧
    ∀ c ∈ minimaxCalls
        ((getValidMoves
          [[some 1, some 1, none], [some 0, some 0, none], [some 1, some 0, some 1]]).length + 1)
        [[some 1, some 1, none], [some 0, some 0, none], [some 1, some 0, some 1]] 1 false 4,
      perspective c.player c.maximizing = perspective 1 false ∧ c.player ≤ 1 ∧
      (c.player = 1 ↔ c.maximizing = false) :=
  ⟨by decide, by decide,
    (minimax_alternates_player
      [[some 1, some 1, none], [some 0, some 0, none], [some 1, some 0, some 1]] 1 false 4
      (by decide) (by decide) (by decide)).2.2.1,
    (minimax_alternates_player
      [[some 1, some 1, none], [some 0, some 0, none], [some 1, some 0, some 1]] 1 false 4
      (by decide) (by decide) (by decide)).1⟩

/-- Claim C10, as stated, fails: it also quantifies over the opponent's replies
on a board `b1` that `p` has already won, where the game is over. On the board
`1 1 _ / 0 0 _ / _ _ _` player `0` gets the value `99` with the move
`{ x: 2, y: 1 }`, which completes row 1; `b1` still has the empty cell
`{ x: 2, y: 0 }`, and with the opponent `1` placed there row 0 is complete too
and is scanned first, so `getWinner` returns the opponent. -/
theorem minimax_keeps_non_losing_fails :
    ¬ ∀ (board : Board) (p : Nat), IsBoard board → p ≤ 1 → getWinner board = some (-1) →
      getValidMoves board ≠ [] → ∀ (v : Int) (mv : Move),
      minimax board p true 0 = some ⟨some v, some mv⟩ → 0 ≤ v →
      getWinner (setCell board mv.y mv.x (some p)) ≠ some (nextPlayer p : Int) ∧
      ∀ c ∈ getValidMoves (setCell board mv.y mv.x (some p)),
        getWinner (setCell (setCell board mv.y mv.x (some p)) c.y c.x (some (nextPlayer p)))
            ≠ some (nextPlayer p : Int) ∧
        (getWinner (setCell (setCell board mv.y mv.x (some p)) c.y c.x (some (nextPlayer p)))
            = some (-1) →
          getValidMoves (setCell (setCell board mv.y mv.x (some p)) c.y c.x
            (some (nextPlayer p))) ≠ [] →
          ∃ (v2 : Int) (mv2 : Move),
            minimax (setCell (setCell board mv.y mv.x (some p)) c.y c.x (some (nextPlayer p)))
              p true 0 = some ⟨some v2, some mv2⟩ ∧ 0 ≤ v2) := by
  intro h
  have hres : minimax [[some 1, some 1, none], [some 0, some 0, none], [none, none, none]]
      0 true 0 = some ⟨some 99, some ⟨2, 1⟩⟩ := by decide!
  have h1 := (h [[some 1, some 1, none], [some 0, some 0, none], [none, none, none]] 0
    (by decide) (by decide) (by decide) (by decide) 99 ⟨2, 1⟩ hres (by decide)).2
    ⟨2, 0⟩ (by decide)
  exact h1.1 (by decide)

/-- Claim C10, amended: if `minimax(b, p)` (maximizing, depth `0`) returns a value
`≥ 0` with move `m` on a board with no winner and an empty cell, then on the
board `b1` with `p` placed on `m` the winner is not the opponent; and when `b1`
has no winner, for every empty cell of `b1` the board `b2` with the opponent
placed there does not have the opponent as winner and, when `b2` is not
terminal, `minimax(b2, p)` again returns a value `≥ 0`. -/
theorem minimax_keeps_non_losing (board : Board) (p : Nat) (hb : IsBoard board) (hp : p ≤ 1)
    (hw : getWinner board = some (-1)) (hne : getValidMoves board ≠ [])
    (v : Int) (mv : Move) (hres : minimax board p true 0 = some ⟨some v, some mv⟩)
    (hv : 0 ≤ v) :
    getWinner (setCell board mv.y mv.x (some p)) ≠ some (nextPlayer p : Int) ∧
    (getWinner (setCell board mv.y mv.x (some p)) = some (-1) →
      ∀ c ∈ getValidMoves (setCell board mv.y mv.x (some p)),
        getWinner (setCell (setCell board mv.y mv.x (some p)) c.y c.x (some (nextPlayer p)))
            ≠ some (nextPlayer p : Int) ∧
        (getWinner (setCell (setCell board mv.y mv.x (some p)) c.y c.x (some (nextPlayer p)))
            = some (-1) →
          getValidMoves (setCell (setCell board mv.y mv.x (some p)) c.y c.x
            (some (nextPlayer p))) ≠ [] →
          ∃ (v2 : Int) (mv2 : Move),
            minimax (setCell (setCell board mv.y mv.x (some p)) c.y c.x (some (nextPlayer p)))
              p true 0 = some ⟨some v2, some mv2⟩ ∧ 0 ≤ v2)) := by
  obtain ⟨i, mv', hres', hi, _, _⟩ := minimax_nonterminal board p true 0 hw hne
  rw [hres] at hres'
  simp only [Option.some.injEq, Result.mk.injEq] at hres'
  obtain ⟨hv', hmv'⟩ := hres'
  subst hmv'
  have hmem : mv ∈ getValidMoves board := List.getElem?_mem hi
  rw [childResult_exact _ _ _ _ _ (by norm_num) (by norm_num)] at hv'
  have hv1 : 0 ≤ valueOf (minimax (setCell board mv.y mv.x (some p)) (nextPlayer p) (!true)
      (0 + 1)) := by rw [← hv']; exact hv
  have hb1 : IsBoard (setCell board mv.y mv.x (some p)) := isBoard_setCell hb hp hmem
  have hq := nextPlayer_le p
  have hqq := nextPlayer_nextPlayer hp
  have hpq : (nextPlayer p : Int) ≠ (p : Int) := by
    have := nextPlayer_ne p
    omega
  constructor
  · intro hw1
    rw [minimax_winner _ _ _ _ (by rw [hw1]; simp), hw1,
      jsSub_exact (by norm_num) (by norm_num), jsAdd_exact (by norm_num) (by norm_num)] at hv1
    simp [valueOf] at hv1
  · intro hw1 c hc
    have hne1 : getValidMoves (setCell board mv.y mv.x (some p)) ≠ [] := List.ne_nil_of_mem hc
    have hstep := (minimax_sign_step _ (nextPlayer p) (!true) true (0 + 1) hw1 hne1).1
      (by simpa [SignOk] using hv1)
    rw [if_neg (by decide)] at hstep
    have hc2 := hstep c hc
    rw [childResult_exact _ _ _ _ _ (by norm_num) (by norm_num), hqq] at hc2
    simp only [SignOk, if_true, Bool.not_not] at hc2
    have hb2 : IsBoard (setCell (setCell board mv.y mv.x (some p)) c.y c.x
        (some (nextPlayer p))) := isBoard_setCell hb1 hq hc
    constructor
    · intro hw2
      rw [minimax_winner _ _ _ _ (by rw [hw2]; simp), hw2,
        jsSub_exact (by norm_num) (by norm_num), jsAdd_exact (by norm_num) (by norm_num)] at hc2
      simp [valueOf, hpq] at hc2
    · intro hw2 hne2
      obtain ⟨i2, mv2, hres2, _, _, _⟩ := minimax_nonterminal _ p true 0 hw2 hne2
      refine ⟨_, mv2, hres2, ?_⟩
      have hsign := (sign_depth_independent _ hb2 p hp true true (0 + 1 + 1) 0 (by omega)
        (by omega) (by omega) (by omega)).1 (by simpa [SignOk] using hc2)
      rw [hres2] at hsign
      simpa [SignOk, valueOf] using hsign

theorem minimax_keeps_non_losing_witness :
    IsBoard [[none, none, none], [some 0, none, some 1], [some 1, some 0, some 1]] ∧
    minimax [[none, none, none], [some 0, none, some 1], [some 1, some 0, some 1]] 0 true 0 = some ⟨some 0, some ⟨2, 0⟩⟩ ∧
    getWinner (setCell [[none, none, none], [some 0, none, some 1], [some 1, some 0, some 1]] 0 2 (some 0)) = some (-1) ∧
    ∀ c ∈ getValidMoves (setCell [[none, none, none], [some 0, none, some 1], [some 1, some 0, some 1]] 0 2 (some 0)),
      getWinner (setCell (setCell [[none, none, none], [some 0, none, some 1], [some 1, some 0, some 1]] 0 2 (some 0)) c.y c.x (some (nextPlayer 0)))
          ≠ some (nextPlayer 0 : Int) ∧
      (getWinner (setCell (setCell [[none, none, none], [some 0, none, some 1], [some 1, some 0, some 1]] 0 2 (some 0)) c.y c.x (some (nextPlayer 0)))
          = some (-1) →
        getValidMoves (setCell (setCell [[none, none, none], [some 0, none, some 1], [some 1, some 0, some 1]] 0 2 (some 0)) c.y c.x (some (nextPlayer 0))) ≠ [] →
        ∃ (v2 : Int) (mv2 : Move),
          minimax (setCell (setCell [[none, none, none], [some 0, none, some 1], [some 1, some 0, some 1]] 0 2 (some 0)) c.y c.x (some (nextPlayer 0)))
            0 true 0 = some ⟨some v2, some mv2⟩ ∧ 0 ≤ v2) :=
  ⟨by decide, by decide, by decide,
    (minimax_keeps_non_losing [[none, none, none], [some 0, none, some 1], [some 1, some 0, some 1]] 0
      (by decide) (by decide) (by decide) (by decide) 0 ⟨2, 0⟩ (by decide) (by decide)).2
      (by decide)⟩

end TicTacToe